import Mathlib

/-!
Verification of the DSL-backtester repository (dsl_parser.py, code_generator.py,
indicators.py, backtest.py) against its natural-language specification.

Conventions of the shallow embedding:
* Python floats are modelled as `ℚ` (arbitrary-precision, no rounding); the IEEE
  special values produced by pandas/numpy (`NaN`, `±inf`) are modelled explicitly by
  the `Cell` type, with comparison/arithmetic semantics spelled out case by case.
* A pandas `Series` over the bar index is a `List Cell` (raw data columns, which
  contain no NaN, are `List ℚ`).
* Dates are `ℤ` (the bar table is date-indexed; only their order matters).
* The simulator's `for idx, row in df.iterrows()` loop is written as structural
  recursion over the row list, with the loop state (trade list, open position)
  threaded explicitly.
-/

namespace Backtester

/-! ## IEEE cell values (pandas float entries: a rational, NaN, or ±inf) -/

/-- One entry of a pandas float series: a finite value, NaN, or a signed infinity. -/
inductive Cell where
  | val (q : ℚ)
  | nan
  | pinf
  | ninf
deriving DecidableEq

/-- IEEE `>` on cells: any comparison involving NaN is `False` (numpy semantics). -/
def cellGt : Cell → Cell → Bool
  | .nan, _ => false
  | _, .nan => false
  | .val a, .val b => decide (a > b)
  | .pinf, .pinf => false
  | .pinf, _ => true
  | _, .pinf => false
  | .ninf, _ => false
  | .val _, .ninf => true

/-- IEEE `<` on cells. -/
def cellLt : Cell → Cell → Bool
  | .nan, _ => false
  | _, .nan => false
  | .val a, .val b => decide (a < b)
  | .pinf, _ => false
  | _, .pinf => true
  | .ninf, _ => true
  | .val _, .ninf => false

/-- IEEE `>=` on cells: `False` whenever NaN is involved. -/
def cellGe : Cell → Cell → Bool
  | .nan, _ => false
  | _, .nan => false
  | .val a, .val b => decide (a ≥ b)
  | .pinf, _ => true
  | _, .pinf => false
  | .val _, .ninf => true
  | .ninf, .ninf => true
  | .ninf, .val _ => false

/-- IEEE `<=` on cells: `False` whenever NaN is involved. -/
def cellLe : Cell → Cell → Bool
  | .nan, _ => false
  | _, .nan => false
  | .val a, .val b => decide (a ≤ b)
  | .ninf, _ => true
  | _, .ninf => false
  | .val _, .pinf => true
  | .pinf, .pinf => true
  | .pinf, .val _ => false

/-- IEEE `==` on cells: NaN is equal to nothing, including itself. -/
def cellEq : Cell → Cell → Bool
  | .val a, .val b => decide (a = b)
  | .pinf, .pinf => true
  | .ninf, .ninf => true
  | _, _ => false

/-- IEEE `!=` on cells: the negation of `==`; in particular NaN `!=` anything is `True`. -/
def cellNe (a b : Cell) : Bool := !(cellEq a b)

/-- IEEE subtraction on cells (used by `change`/`percent_change`). -/
def cellSub : Cell → Cell → Cell
  | .nan, _ => .nan
  | _, .nan => .nan
  | .val a, .val b => .val (a - b)
  | .pinf, .pinf => .nan
  | .ninf, .ninf => .nan
  | .pinf, _ => .pinf
  | .ninf, _ => .ninf
  | .val _, .pinf => .ninf
  | .val _, .ninf => .pinf

/-- IEEE division on cells: numpy float division by zero yields `±inf`, and `0/0 = NaN`. -/
def cellDiv : Cell → Cell → Cell
  | .nan, _ => .nan
  | _, .nan => .nan
  | .val a, .val b =>
    if b = 0 then (if a = 0 then .nan else if a > 0 then .pinf else .ninf)
    else .val (a / b)
  | .pinf, .pinf => .nan
  | .pinf, .ninf => .nan
  | .ninf, .pinf => .nan
  | .ninf, .ninf => .nan
  | .pinf, .val b => if b < 0 then .ninf else .pinf
  | .ninf, .val b => if b < 0 then .pinf else .ninf
  | .val _, .pinf => .val 0
  | .val _, .ninf => .val 0

/-- Multiplication by the positive constant 100 (the `* 100` of `percent_change`). -/
def cellMul100 : Cell → Cell
  | .val a => .val (a * 100)
  | .nan => .nan
  | .pinf => .pinf
  | .ninf => .ninf

/-! ## Indicator library (indicators.py) -/

/-- `series.shift(n)` over the embedded series: entry `i` is the source entry `i - n`
when that index exists, and NaN otherwise (leading NaNs for a positive shift). -/
def shiftSeries (n : ℤ) (s : List Cell) : List Cell :=
  (List.range s.length).map (fun (i : ℕ) =>
    if 0 ≤ (i : ℤ) - n ∧ (i : ℤ) - n < (s.length : ℤ) then s.getD ((i : ℤ) - n).toNat .nan
    else .nan)

/-- `series.rolling(window=p, min_periods=1).mean()`: entry `i` is the mean of the last
`min (i+1) p` entries, i.e. the window shrinks near the start of the series. -/
def rollingMean (p : ℕ) (xs : List ℚ) : List ℚ :=
  (List.range xs.length).map (fun i =>
    let w := (xs.take (i + 1)).drop (i + 1 - p)
    w.sum / (w.length : ℚ))

/-- `sma` from indicators.py: `series.rolling(window=period, min_periods=1).mean()`. -/
def smaList (xs : List ℚ) (p : ℕ) : List ℚ := rollingMean p xs

/-- Tail of `ema`: `e_i = α·x_i + (1-α)·e_{i-1}`. -/
def emaAux (α : ℚ) (prev : ℚ) : List ℚ → List ℚ
  | [] => []
  | x :: xs => (α * x + (1 - α) * prev) :: emaAux α (α * x + (1 - α) * prev) xs

/-- `ema` from indicators.py: `series.ewm(span=period, adjust=False).mean()`,
i.e. `α = 2/(period+1)`, seeded with the first observation. -/
def emaList (xs : List ℚ) (p : ℕ) : List ℚ :=
  match xs with
  | [] => []
  | x :: rest => x :: emaAux (2 / ((p : ℚ) + 1)) x rest

/-- The successive differences `series.diff()` of rsi, with the leading NaN difference
represented as `0`: both `delta.where(delta > 0, 0)` and `-delta.where(delta < 0, 0)`
turn that NaN into `0`, so the two usages agree with this representation. -/
def deltaList (s : List ℚ) : List ℚ :=
  (List.range s.length).map (fun i =>
    if i = 0 then 0 else s.getD i 0 - s.getD (i - 1) 0)

/-- `rsi` from indicators.py.  `gain`/`loss` are shrinking-window rolling means of the
positive/negative parts of the differences; `rs = gain/loss`;
`rsi = 100 - 100/(1+rs)`; NaN results (from `0/0`) are filled with the neutral 50.
The float special cases are written out: `loss = 0, gain = 0` gives `0/0 = NaN → 50`;
`loss = 0, gain > 0` gives `rs = +inf`, hence `100 - 100/(1+inf) = 100`. -/
def rsiList (s : List ℚ) (p : ℕ) : List ℚ :=
  let delta := deltaList s
  let gain := rollingMean p (delta.map (fun d => if d > 0 then d else 0))
  let loss := rollingMean p (delta.map (fun d => if d < 0 then -d else 0))
  (List.range s.length).map (fun i =>
    let gi := gain.getD i 0
    let li := loss.getD i 0
    if li = 0 then (if gi = 0 then 50 else 100)
    else 100 - 100 / (1 + gi / li))

/-- `crosses_above` from indicators.py: `series1 > series2` now, and
`series1.shift(1) <= series2.shift(1)` on the previous row.  (Scalar second
arguments are broadcast to a constant series by the caller before this point.) -/
def crossesAbove (a b : List Cell) : List Bool :=
  List.zipWith (· && ·) (List.zipWith cellGt a b)
    (List.zipWith cellLe (shiftSeries 1 a) (shiftSeries 1 b))

/-- `crosses_below` from indicators.py: mirror of `crossesAbove` with `<` / `>=`. -/
def crossesBelow (a b : List Cell) : List Bool :=
  List.zipWith (· && ·) (List.zipWith cellLt a b)
    (List.zipWith cellGe (shiftSeries 1 a) (shiftSeries 1 b))

/-! ## Strategy evaluator (code_generator.py) -/

/-- The bar table seen by the evaluator: the index length and the named numeric
columns (raw OHLCV data contains no NaN, so columns are plain `List ℚ`). -/
structure Frame where
  n : ℕ
  cols : List (String × List ℚ)

/-- Column lookup, `df[name]` guarded by `name in df.columns`. -/
def Frame.col? (f : Frame) (name : String) : Option (List ℚ) :=
  (f.cols.find? (fun c => c.1 == name)).map (·.2)

/-- A frame is well-formed when every column has the index length. -/
def Frame.WF (f : Frame) : Prop := ∀ c ∈ f.cols, c.2.length = f.n

/-- The evaluation errors of code_generator.py (each a `ValueError` with the
corresponding message). `typeError` stands for the `TypeError`s pandas itself
raises (e.g. `&` between non-boolean series, or a non-integer shift amount). -/
inductive Err where
  | unknownColumn (s : String)
  | unknownIndicator (s : String)
  | unknownFunction (s : String)
  | unknownExprType (s : String)
  | arity (s : String)
  | unknownOp (s : String)
  | unknownBoolOp (s : String)
  | invalidLiteral (s : String)
  | typeError
deriving DecidableEq

/-- An evaluated expression: a numeric series or a boolean series. -/
inductive Val where
  | nums (xs : List Cell)
  | bools (xs : List Bool)
deriving DecidableEq

/-- The AST node shapes consumed by `CodeGenerator._evaluate_expression`
(dicts tagged `series` / `indicator` / `function_call` / `binary_op` /
`boolean_op`, plus bare numeric literals). -/
inductive Expr where
  | series (value : String)
  | num (value : ℚ)
  | indicator (name : String) (seriesName : String) (period : ℚ)
  | functionCall (name : String) (args : List Expr)
  | binaryOp (operator : String) (left right : Expr)
  | booleanOp (operator : String) (left right : Expr)

instance : Inhabited Expr := ⟨Expr.num 0⟩

/-- Dictionary keys of `self.time_functions`. -/
def timeFunctionNames : List String := ["yesterday", "last_week", "n_days_ago"]

/-- Dictionary keys of `self.change_functions`. -/
def changeFunctionNames : List String := ["change", "percent_change"]

/-- Dictionary keys of `self.cross_functions`. -/
def crossFunctionNames : List String := ["crosses_above", "crosses_below"]

/-- A `Val` used where pandas needs a numeric series.  Boolean series never reach
these positions from parser-produced ASTs (the grammar only places series,
indicators, numbers and function calls there). -/
def asNums : Val → Except Err (List Cell)
  | .nums xs => .ok xs
  | .bools _ => .error .typeError

/-- A raw function argument used as a shift amount `n`: the transformer always puts a
bare number there; `series.shift` then requires an integer (otherwise pandas raises). -/
def asIntArg : Expr → Except Err ℤ
  | .num q => if q.den = 1 then .ok q.num else .error .typeError
  | _ => .error .typeError

/-- Elementwise `&` of two series (`left & right`): defined on boolean series,
a `TypeError` between float series (numpy raises on float `&`). -/
def andVal : Val → Val → Except Err Val
  | .bools a, .bools b => .ok (.bools (List.zipWith (· && ·) a b))
  | _, _ => .error .typeError

/-- Elementwise `|` of two series (`left | right`). -/
def orVal : Val → Val → Except Err Val
  | .bools a, .bools b => .ok (.bools (List.zipWith (· || ·) a b))
  | _, _ => .error .typeError

/-- A pandas rolling/ewm window argument must be a whole number `≥ 1`. -/
def okPeriod (q : ℚ) : Prop := q.den = 1 ∧ 1 ≤ q.num

instance (q : ℚ) : Decidable (okPeriod q) := by unfold okPeriod; infer_instance

/-- `CodeGenerator._evaluate_expression` and its helpers `_evaluate_indicator`,
`_evaluate_function_call`, `_evaluate_binary_op`, `_evaluate_boolean_op`:
recursive interpretation of an AST node into a series aligned with `f`. -/
def eval : Expr → Frame → Except Err Val
  | .series v, f =>
    match f.col? v with
    | some xs => .ok (.nums (xs.map .val))
    | none => .error (.unknownColumn v)
  | .num q, f => .ok (.nums (List.replicate f.n (.val q)))
  | .indicator name ser p, f =>
    match f.col? ser with
    | none => .error (.unknownColumn ser)
    | some xs =>
      if name = "sma" then
        if okPeriod p then .ok (.nums ((smaList xs p.num.toNat).map .val)) else .error .typeError
      else if name = "rsi" then
        if okPeriod p then .ok (.nums ((rsiList xs p.num.toNat).map .val)) else .error .typeError
      else if name = "ema" then
        if okPeriod p then .ok (.nums ((emaList xs p.num.toNat).map .val)) else .error .typeError
      else .error (.unknownIndicator name)
  | .functionCall name args, f =>
    if name ∈ timeFunctionNames then
      match args with
      | [] => .error (.arity name)
      | a :: rest => do
        let v ← eval a f
        let xs ← asNums v
        if name = "yesterday" then .ok (.nums (shiftSeries 1 xs))
        else if name = "last_week" then .ok (.nums (shiftSeries 7 xs))
        else
          match rest.head? with
          | none => .ok (.nums (shiftSeries 1 xs))
          | some e => do
            let n ← asIntArg e
            .ok (.nums (shiftSeries n xs))
    else if name ∈ changeFunctionNames then
      match args with
      | [] => .error (.arity name)
      | a :: rest => do
        let v ← eval a f
        let xs ← asNums v
        let n ← (match rest.head? with
                 | none => pure (1 : ℤ)
                 | some e => asIntArg e)
        if name = "change" then
          .ok (.nums (List.zipWith cellSub xs (shiftSeries n xs)))
        else
          .ok (.nums (List.zipWith
            (fun cur prev => cellMul100 (cellDiv (cellSub cur prev) prev))
            xs (shiftSeries n xs)))
    else if name ∈ crossFunctionNames then
      match args with
      | a :: b :: _ => do
        let lv ← eval a f
        let l ← asNums lv
        let rv ← eval b f
        let r ← asNums rv
        if name = "crosses_above" then .ok (.bools (crossesAbove l r))
        else .ok (.bools (crossesBelow l r))
      | _ => .error (.arity name)
    else .error (.unknownFunction name)
  | .binaryOp op l r, f => do
    let lv ← eval l f
    let rv ← eval r f
    if op = "crosses_above" then do
      let a ← asNums lv
      let b ← asNums rv
      .ok (.bools (crossesAbove a b))
    else if op = "crosses_below" then do
      let a ← asNums lv
      let b ← asNums rv
      .ok (.bools (crossesBelow a b))
    else if op = ">" then do
      let a ← asNums lv
      let b ← asNums rv
      .ok (.bools (List.zipWith cellGt a b))
    else if op = "<" then do
      let a ← asNums lv
      let b ← asNums rv
      .ok (.bools (List.zipWith cellLt a b))
    else if op = ">=" then do
      let a ← asNums lv
      let b ← asNums rv
      .ok (.bools (List.zipWith cellGe a b))
    else if op = "<=" then do
      let a ← asNums lv
      let b ← asNums rv
      .ok (.bools (List.zipWith cellLe a b))
    else if op = "==" then do
      let a ← asNums lv
      let b ← asNums rv
      .ok (.bools (List.zipWith cellEq a b))
    else if op = "!=" then do
      let a ← asNums lv
      let b ← asNums rv
      .ok (.bools (List.zipWith cellNe a b))
    else .error (.unknownOp op)
  | .booleanOp op l r, f => do
    let lv ← eval l f
    let rv ← eval r f
    if op = "AND" then andVal lv rv
    else if op = "OR" then orVal lv rv
    else .error (.unknownBoolOp op)

/-- `signal.fillna(False)` followed by the truthiness test the simulator applies to
the column: booleans unchanged; on a float column, NaN becomes `False` and any
other entry is truthy iff nonzero. -/
def fillnaFalse : Val → List Bool
  | .bools xs => xs
  | .nums xs => xs.map (fun c =>
      match c with
      | .val q => decide (q ≠ 0)
      | .nan => false
      | .pinf => true
      | .ninf => true)

/-- One signal column of `evaluate_strategy` (generate, code_generator.py lines
74-106): an absent or empty condition list leaves the initialized all-`False`
column; otherwise the condition results are combined left-to-right with `&`
and the combined series is passed through `fillna(False)`. -/
def evalColumn (conds : List Expr) (f : Frame) : Except Err (List Bool) :=
  match conds with
  | [] => .ok (List.replicate f.n false)
  | c :: cs => do
    let v0 ← eval c f
    let v ← cs.foldlM (fun acc c => do
      let w ← eval c f
      andVal acc w) v0
    .ok (fillnaFalse v)

/-- The AST consumed by `CodeGenerator.generate`: lists of rule nodes under the
top-level `entry` / `exit` keys (absent key ≙ empty list). -/
structure Ast where
  entry : List Expr
  exit : List Expr

/-- `evaluate_strategy`: both signal columns (entry evaluated first). -/
def evaluateStrategy (ast : Ast) (f : Frame) : Except Err (List Bool × List Bool) := do
  let e ← evalColumn ast.entry f
  let x ← evalColumn ast.exit f
  .ok (e, x)

/-! ## Backtest simulator (backtest.py) -/

/-- One row of the bar table, carrying its date and the values of the selected
entry/exit price columns (`row[entry_price_col]`, `row[exit_price_col]`; both
default to `close`, in which case `entryPrice = exitPrice` on every row). -/
structure Bar where
  date : ℤ
  entryPrice : ℚ
  exitPrice : ℚ
deriving DecidableEq

/-- One row of the signal table (`signals.loc[idx, 'entry'] / 'exit'`). -/
structure SignalRow where
  entry : Bool
  exit : Bool
deriving DecidableEq

/-- The `Trade` dataclass. -/
structure Trade where
  entry_date : ℤ
  exit_date : ℤ
  entry_price : ℚ
  exit_price : ℚ
  pnl : ℚ
  return_pct : ℚ
deriving DecidableEq

instance : Inhabited Trade := ⟨⟨0, 0, 0, 0, 0, 0⟩⟩

/-- Trade construction as in `BacktestSimulator.run`:
`pnl = exit - entry`, `return_pct = pnl / entry * 100`. -/
def mkTrade (ed xd : ℤ) (ep xp : ℚ) : Trade :=
  ⟨ed, xd, ep, xp, xp - ep, (xp - ep) / ep * 100⟩

/-- The open-position record (`position = {'entry_date': …, 'entry_price': …}`). -/
structure Position where
  entry_date : ℤ
  entry_price : ℚ
deriving DecidableEq

/-- The body of the `for idx, row in df.iterrows()` loop of `run` (lines 70-100):
an open position flagged for exit closes first, and the entry check runs
afterwards on the same row (`if position is None and entry_signal`), so a row
that both exits and enters closes the old trade and opens a new position
at that same row. -/
def simStep (trades : List Trade) (pos : Option Position) (bar : Bar) (sig : SignalRow) :
    List Trade × Option Position :=
  match pos with
  | some p =>
    if sig.exit then
      if sig.entry then
        (trades ++ [mkTrade p.entry_date bar.date p.entry_price bar.exitPrice],
         some ⟨bar.date, bar.entryPrice⟩)
      else
        (trades ++ [mkTrade p.entry_date bar.date p.entry_price bar.exitPrice], none)
    else (trades, some p)
  | none =>
    if sig.entry then (trades, some ⟨bar.date, bar.entryPrice⟩) else (trades, none)

/-- The whole loop of `run`, threading the trade list and position through the rows. -/
def simLoop (trades : List Trade) (pos : Option Position) :
    List (Bar × SignalRow) → List Trade × Option Position
  | [] => (trades, pos)
  | (bar, sig) :: rows =>
    simLoop (simStep trades pos bar sig).1 (simStep trades pos bar sig).2 rows

/-- `run` up to and including the forced liquidation (lines 102-121): after the loop,
a still-open position is closed at the last row's exit price.  Returns the trade
list together with the position state after that close (always `none` for a
nonempty table). -/
def runFull (bars : List Bar) (signals : List SignalRow) : List Trade × Option Position :=
  let res := simLoop [] none (bars.zip signals)
  match res.2, bars.getLast? with
  | some p, some lastBar =>
    (res.1 ++ [mkTrade p.entry_date lastBar.date p.entry_price lastBar.exitPrice], none)
  | _, _ => res

/-- The trade list produced by `run`. -/
def runTrades (bars : List Bar) (signals : List SignalRow) : List Trade :=
  (runFull bars signals).1

/-! ## Metrics (`BacktestSimulator._calculate_metrics`) -/

/-- `returns = [trade.return_pct for trade in trades]`. -/
def returnsOf (trades : List Trade) : List ℚ := trades.map (·.return_pct)

/-- `np.mean` over a list of rationals. -/
def meanQ (xs : List ℚ) : ℚ := xs.sum / (xs.length : ℚ)

/-- The equity-curve loop (lines 147-152): sequential compounding
`current_equity *= (1 + trade.return_pct / 100)`, collecting each value. -/
def equityCurve (cap : ℚ) : List Trade → List ℚ
  | [] => []
  | t :: ts => cap * (1 + t.return_pct / 100) :: equityCurve (cap * (1 + t.return_pct / 100)) ts

/-- The drawdown loop (lines 155-168): running peak, maximal `peak - equity` and
maximal `(peak - equity)/peak*100`, with the code's literal `if … > …` updates. -/
def ddLoop (peak maxDd maxDdPct : ℚ) : List ℚ → ℚ × ℚ
  | [] => (maxDd, maxDdPct)
  | e :: es =>
    let peak2 := if e > peak then e else peak
    let d := peak2 - e
    let dPct := (peak2 - e) / peak2 * 100
    ddLoop peak2 (if d > maxDd then d else maxDd) (if dPct > maxDdPct then dPct else maxDdPct) es

/-- `max_drawdown` and `max_drawdown_pct` of a (possibly empty) equity curve:
the loop starts with `peak = equity_curve[0]` and both maxima at `0`. -/
def maxDrawdowns : List ℚ → ℚ × ℚ
  | [] => (0, 0)
  | e0 :: rest => ddLoop e0 0 0 (e0 :: rest)

/-- `BacktestResult` without its real-valued `sharpe_ratio` field, which is
`sharpeRatio` below (it is the one irrational-valued metric). -/
structure BacktestResultQ where
  trades : List Trade
  total_return : ℚ
  total_return_pct : ℚ
  max_drawdown : ℚ
  max_drawdown_pct : ℚ
  num_trades : ℕ
  win_rate : ℚ
  avg_return : ℚ
deriving DecidableEq

/-- `_calculate_metrics` (lines 126-199), except the `sharpe_ratio` field:
all-zero metrics for an empty trade list; otherwise the additive total return,
the compounded drawdown, the win rate and the average per-trade return. -/
def calcMetrics (cap : ℚ) (trades : List Trade) : BacktestResultQ :=
  if trades.isEmpty then ⟨[], 0, 0, 0, 0, 0, 0, 0⟩
  else
    let returns := returnsOf trades
    let totalReturnPct := returns.sum
    let dd := maxDrawdowns (equityCurve cap trades)
    ⟨trades,
     cap * (totalReturnPct / 100),
     totalReturnPct,
     dd.1,
     dd.2,
     trades.length,
     ((trades.filter (fun t => t.pnl > 0)).length : ℚ) / (trades.length : ℚ),
     meanQ returns⟩

/-- Population variance (`np.std(returns)` squared: `ddof = 0`). -/
def popVar (xs : List ℚ) : ℚ := meanQ (xs.map (fun x => (x - meanQ xs) ^ 2))

/-- `np.std(returns)`: the population standard deviation, as a real number. -/
noncomputable def popStd (xs : List ℚ) : ℝ := Real.sqrt ((popVar xs : ℚ) : ℝ)

/-- The `sharpe_ratio` field of `_calculate_metrics` (lines 183-187):
`mean/std * sqrt(252)` when there are at least two returns and `std > 0`,
`None` otherwise. -/
noncomputable def sharpeRatio (trades : List Trade) : Option ℝ :=
  let returns := returnsOf trades
  if 1 < returns.length then
    (if 0 < popStd returns then
      some (((meanQ returns : ℚ) : ℝ) / popStd returns * Real.sqrt 252)
     else none)
  else none

/-! ## DSL parser (dsl_parser.py)

The grammar `DSL_GRAMMAR` is embedded as a tokenizer plus a grammar-directed
recursive-descent parser; the Lark LALR engine itself is an external library,
but this parser accepts/rejects according to the same grammar and applies the
`DSLTransformer` shapes to build the same AST nodes.

Two Lark behaviours are reproduced deliberately:
* anonymous string tokens (`">"`, `"<"`, …, `"AND"`, `"OR"`, parentheses,
  commas) are filtered out of the parse tree, so `DSLTransformer.operator`
  receives an empty item list for every comparison operator except the named
  `CROSSES_ABOVE`/`CROSSES_BELOW` terminals and falls back to `">"`
  (dsl_parser.py lines 137-142), and `DSLTransformer.boolean_op` likewise
  always falls back to `"AND"` (lines 144-148);
* a failed parse carries the position and text of the offending token
  (`SynErr`), as Lark's exceptions do; `DSLParser.parse` re-raises them as
  `ValueError` (the spec's `SyntaxError`). -/

/-- The terminals of `DSL_GRAMMAR` (plus an explicit end-of-input marker). -/
inductive Tok where
  | entryKw
  | exitKw
  | colon
  | lparen
  | rparen
  | comma
  | percentSign
  | andKw
  | orKw
  | op (s : String)
  | name (s : String)
  | num (q : ℚ)
  | eof
deriving DecidableEq

/-- A token together with its character position in the (stripped) input. -/
structure PTok where
  tok : Tok
  pos : ℕ
deriving DecidableEq

/-- A syntax error: the position and text of the offending token or character. -/
structure SynErr where
  pos : ℕ
  found : String
deriving DecidableEq

/-- Display text of a token, used in error reports. -/
def tokStr : Tok → String
  | .entryKw => "ENTRY"
  | .exitKw => "EXIT"
  | .colon => ":"
  | .lparen => "("
  | .rparen => ")"
  | .comma => ","
  | .percentSign => "%"
  | .andKw => "AND"
  | .orKw => "OR"
  | .op s => s
  | .name s => s
  | .num _ => "NUMBER"
  | .eof => "$END"

/-- Characters allowed in an identifier/keyword. -/
def identChar (c : Char) : Bool := c.isAlpha || c = '_'

/-- Decimal digit run to a natural number. -/
def digitsVal (cs : List Char) : ℕ := cs.foldl (fun a c => a * 10 + (c.toNat - 48)) 0

/-- Value of a `SIGNED_NUMBER` from sign, integer digits and fraction digits. -/
def numVal (neg : Bool) (ip fp : List Char) : ℚ :=
  let base : ℚ := (digitsVal ip : ℚ) + (digitsVal fp : ℚ) / (10 : ℚ) ^ fp.length
  if neg then -base else base

/-- Scan a `SIGNED_NUMBER` starting at the head of `cs`; returns its value and the
number of characters consumed. -/
def scanNumber (cs : List Char) : ℚ × ℕ :=
  let sgn : Bool × List Char × ℕ :=
    match cs with
    | '-' :: t => (true, t, 1)
    | '+' :: t => (false, t, 1)
    | t => (false, t, 0)
  let body := sgn.2.1
  let ip := body.takeWhile Char.isDigit
  let afterIp := body.drop ip.length
  match afterIp with
  | '.' :: t2 =>
    let fp := t2.takeWhile Char.isDigit
    (numVal sgn.1 ip fp, sgn.2.2 + ip.length + 1 + fp.length)
  | _ => (numVal sgn.1 ip [], sgn.2.2 + ip.length)

/-- Classify a scanned identifier: grammar keywords, the named cross terminals,
or a plain name. -/
def classifyIdent (s : String) : Tok :=
  if s = "ENTRY" then .entryKw
  else if s = "EXIT" then .exitKw
  else if s = "AND" then .andKw
  else if s = "OR" then .orKw
  else if s = "crosses_above" then .op s
  else if s = "crosses_below" then .op s
  else .name s

/-- The tokenizer loop; whitespace is ignored between tokens (`%ignore WS`), and a
character that starts no terminal is a scan error at its position. -/
def tokenizeAux : ℕ → List Char → ℕ → Except SynErr (List PTok)
  | 0, _, pos => .error ⟨pos, ("fuel")⟩
  | fuel + 1, cs, pos =>
    match cs with
    | [] => .ok []
    | c :: rest =>
      if c.isWhitespace then tokenizeAux fuel rest (pos + 1)
      else if c = ':' then
        (tokenizeAux fuel rest (pos + 1)).map (⟨.colon, pos⟩ :: ·)
      else if c = '(' then
        (tokenizeAux fuel rest (pos + 1)).map (⟨.lparen, pos⟩ :: ·)
      else if c = ')' then
        (tokenizeAux fuel rest (pos + 1)).map (⟨.rparen, pos⟩ :: ·)
      else if c = ',' then
        (tokenizeAux fuel rest (pos + 1)).map (⟨.comma, pos⟩ :: ·)
      else if c = '%' then
        (tokenizeAux fuel rest (pos + 1)).map (⟨.percentSign, pos⟩ :: ·)
      else if c = '>' then
        match rest with
        | '=' :: rest2 => (tokenizeAux fuel rest2 (pos + 2)).map (⟨.op (">="), pos⟩ :: ·)
        | _ => (tokenizeAux fuel rest (pos + 1)).map (⟨.op (">"), pos⟩ :: ·)
      else if c = '<' then
        match rest with
        | '=' :: rest2 => (tokenizeAux fuel rest2 (pos + 2)).map (⟨.op ("<="), pos⟩ :: ·)
        | _ => (tokenizeAux fuel rest (pos + 1)).map (⟨.op ("<"), pos⟩ :: ·)
      else if c = '=' then
        match rest with
        | '=' :: rest2 => (tokenizeAux fuel rest2 (pos + 2)).map (⟨.op ("=="), pos⟩ :: ·)
        | _ => .error ⟨pos, ("=")⟩
      else if c = '!' then
        match rest with
        | '=' :: rest2 => (tokenizeAux fuel rest2 (pos + 2)).map (⟨.op ("!="), pos⟩ :: ·)
        | _ => .error ⟨pos, ("!")⟩
      else if identChar c then
        let tl := rest.takeWhile identChar
        let s := String.mk (c :: tl)
        (tokenizeAux fuel (rest.drop tl.length) (pos + 1 + tl.length)).map
          (⟨classifyIdent s, pos⟩ :: ·)
      else if c.isDigit ∨ ((c = '+' ∨ c = '-') ∧
              ((rest.headD ' ').isDigit ∨ rest.headD ' ' = '.')) ∨
              (c = '.' ∧ (rest.headD ' ').isDigit) then
        let r := scanNumber cs
        (tokenizeAux fuel (cs.drop r.2) (pos + r.2)).map (⟨.num r.1, pos⟩ :: ·)
      else .error ⟨pos, String.singleton c⟩

/-- Python's `str.strip()`: drop leading and trailing whitespace characters. -/
def stripChars (cs : List Char) : List Char :=
  ((cs.dropWhile Char.isWhitespace).reverse.dropWhile Char.isWhitespace).reverse

/-- Tokenize the stripped input (`dsl_text.strip()`), appending an explicit
end-of-input token at the final position. -/
def tokenize (s : String) : Except SynErr (List PTok) :=
  let cs := stripChars s.data
  match tokenizeAux (cs.length + 1) cs 0 with
  | .ok ts => .ok (ts ++ [⟨.eof, cs.length⟩])
  | .error e => .error e

/-- Names matched by `SERIES_NAME`. -/
def seriesNames : List String := ["open", "high", "low", "close", "volume"]

/-- Names matched by `INDICATOR_NAME_TOKEN`. -/
def indicatorNames : List String := ["sma", "rsi", "ema"]

/-- Stand-in for Python's `str(node)` applied to an AST dict: the
`DSLTransformer.indicator` transform stringifies a first argument that is not a
bare series reference (the documented nested-indicator degradation).  The exact
text is immaterial to every property proved here. -/
def reprExpr : Expr → String
  | .series v => v
  | .num q => toString q
  | .indicator n s p => "indicator(" ++ n ++ "," ++ s ++ "," ++ toString p ++ ")"
  | .functionCall n _ => "function_call(" ++ n ++ ")"
  | .binaryOp o _ _ => "binary_op(" ++ o ++ ")"
  | .booleanOp o _ _ => "boolean_op(" ++ o ++ ")"

/-- `DSLTransformer.indicator`: default periods (`rsi → 14`, `sma`/`ema` → `20`) and
extraction of the series name, stringifying non-series first arguments. -/
def mkIndicator (name : String) (argE : Expr) (period : Option ℚ) : Expr :=
  let p : ℚ :=
    match period with
    | some q => q
    | none => if name = "rsi" then 14 else 20
  let ser : String :=
    match argE with
    | .series v => v
    | e => reprExpr e
  .indicator name ser p

/-- Parse one `expression` of the grammar
(`series | indicator | function_call | number | percentage | "(" expression ")"`),
returning the transformed AST node and the remaining tokens. -/
def parseExpression : ℕ → List PTok → Except SynErr (Expr × List PTok)
  | 0, _ => .error ⟨0, ("fuel")⟩
  | fuel + 1, toks =>
    match toks with
    | ⟨.name s, p⟩ :: rest =>
      if s ∈ seriesNames then .ok (.series s, rest)
      else if s ∈ indicatorNames then
        -- indicator: indicator_name "(" expression ("," number)? ")"
        match rest with
        | ⟨.lparen, _⟩ :: r2 =>
          (match parseExpression fuel r2 with
           | .error e => .error e
           | .ok (argE, r3) =>
             match r3 with
             | ⟨.comma, _⟩ :: ⟨.num q, _⟩ :: ⟨.rparen, _⟩ :: r4 =>
               .ok (mkIndicator s argE (some q), r4)
             | ⟨.comma, _⟩ :: ⟨.num _, _⟩ :: ⟨t, p2⟩ :: _ => .error ⟨p2, tokStr t⟩
             | ⟨.comma, _⟩ :: ⟨t, p2⟩ :: _ => .error ⟨p2, tokStr t⟩
             | ⟨.rparen, _⟩ :: r4 => .ok (mkIndicator s argE none, r4)
             | ⟨t, p2⟩ :: _ => .error ⟨p2, tokStr t⟩
             | [] => .error ⟨0, ("$END")⟩)
        | ⟨t, p2⟩ :: _ => .error ⟨p2, tokStr t⟩
        | [] => .error ⟨0, ("$END")⟩
      else if s = "yesterday" ∨ s = "last_week" then
        -- yesterday_func / last_week_func: name "(" series ")"
        match rest with
        | ⟨.lparen, _⟩ :: ⟨.name v, pv⟩ :: ⟨.rparen, _⟩ :: r2 =>
          if v ∈ seriesNames then .ok (.functionCall s [.series v], r2)
          else .error ⟨pv, v⟩
        | ⟨.lparen, _⟩ :: ⟨.name v, pv⟩ :: ⟨t, p2⟩ :: _ =>
          if v ∈ seriesNames then .error ⟨p2, tokStr t⟩ else .error ⟨pv, v⟩
        | ⟨.lparen, _⟩ :: ⟨t, p2⟩ :: _ => .error ⟨p2, tokStr t⟩
        | ⟨t, p2⟩ :: _ => .error ⟨p2, tokStr t⟩
        | [] => .error ⟨0, ("$END")⟩
      else if s = "n_days_ago" ∨ s = "change" ∨ s = "percent_change" then
        -- name "(" series "," number ")"
        match rest with
        | ⟨.lparen, _⟩ :: ⟨.name v, pv⟩ :: ⟨.comma, _⟩ :: ⟨.num q, _⟩ :: ⟨.rparen, _⟩ :: r2 =>
          if v ∈ seriesNames then .ok (.functionCall s [.series v, .num q], r2)
          else .error ⟨pv, v⟩
        | ⟨.lparen, _⟩ :: ⟨.name v, pv⟩ :: ⟨.comma, _⟩ :: ⟨.num _, _⟩ :: ⟨t, p2⟩ :: _ =>
          if v ∈ seriesNames then .error ⟨p2, tokStr t⟩ else .error ⟨pv, v⟩
        | ⟨.lparen, _⟩ :: ⟨.name v, pv⟩ :: ⟨.comma, _⟩ :: ⟨t, p2⟩ :: _ =>
          if v ∈ seriesNames then .error ⟨p2, tokStr t⟩ else .error ⟨pv, v⟩
        | ⟨.lparen, _⟩ :: ⟨.name v, pv⟩ :: ⟨t, p2⟩ :: _ =>
          if v ∈ seriesNames then .error ⟨p2, tokStr t⟩ else .error ⟨pv, v⟩
        | ⟨.lparen, _⟩ :: ⟨t, p2⟩ :: _ => .error ⟨p2, tokStr t⟩
        | ⟨t, p2⟩ :: _ => .error ⟨p2, tokStr t⟩
        | [] => .error ⟨0, ("$END")⟩
      else .error ⟨p, s⟩
    | ⟨.op s, p⟩ :: rest =>
      if s = "crosses_above" ∨ s = "crosses_below" then
        -- cross_function: CROSSES "(" expression "," expression ")"
        match rest with
        | ⟨.lparen, _⟩ :: r2 =>
          (match parseExpression fuel r2 with
           | .error e => .error e
           | .ok (e1, r3) =>
             match r3 with
             | ⟨.comma, _⟩ :: r4 =>
               (match parseExpression fuel r4 with
                | .error e => .error e
                | .ok (e2, r5) =>
                  match r5 with
                  | ⟨.rparen, _⟩ :: r6 => .ok (.functionCall s [e1, e2], r6)
                  | ⟨t, p2⟩ :: _ => .error ⟨p2, tokStr t⟩
                  | [] => .error ⟨0, ("$END")⟩)
             | ⟨t, p2⟩ :: _ => .error ⟨p2, tokStr t⟩
             | [] => .error ⟨0, ("$END")⟩)
        | ⟨t, p2⟩ :: _ => .error ⟨p2, tokStr t⟩
        | [] => .error ⟨0, ("$END")⟩
      else .error ⟨p, s⟩
    | ⟨.num q, _⟩ :: ⟨.percentSign, _⟩ :: rest =>
      -- percentage: same numeric value as the bare number (`float(items[0])`)
      .ok (.num q, rest)
    | ⟨.num q, _⟩ :: rest => .ok (.num q, rest)
    | ⟨.lparen, _⟩ :: rest =>
      (match parseExpression fuel rest with
       | .error e => .error e
       | .ok (e1, r2) =>
         match r2 with
         | ⟨.rparen, _⟩ :: r3 => .ok (e1, r3)
         | ⟨t, p2⟩ :: _ => .error ⟨p2, tokStr t⟩
         | [] => .error ⟨0, ("$END")⟩)
    | ⟨t, p⟩ :: _ => .error ⟨p, tokStr t⟩
    | [] => .error ⟨0, ("$END")⟩

/-- The comparison operators of the `operator` rule. -/
def operatorNames : List String :=
  [">", "<", ">=", "<=", "==", "!=", "crosses_above", "crosses_below"]

/-- Parse one `comparison` (`expression operator expression`) and apply
`DSLTransformer.comparison`/`operator`: the anonymous comparison-operator
tokens are filtered by Lark, so the transformed operator is the `">"` fallback
for everything except the named cross terminals. -/
def parseComparison (toks : List PTok) : Except SynErr (Expr × List PTok) :=
  match parseExpression (toks.length + 1) toks with
  | .error e => .error e
  | .ok (e1, rest) =>
    match rest with
    | ⟨.op s, _⟩ :: rest2 =>
      (match parseExpression (rest2.length + 1) rest2 with
       | .error e => .error e
       | .ok (e2, rest3) =>
         let opName := if s = "crosses_above" ∨ s = "crosses_below" then s else (">")
         .ok (.binaryOp opName e1 e2, rest3))
    | ⟨t, p⟩ :: _ => .error ⟨p, tokStr t⟩
    | [] => .error ⟨0, ("$END")⟩

/-- Combined parser for the mutually recursive `rule` / `rule_list` productions,
driven by `mode`: `0` parses one `rule` (a comparison, or a parenthesized
rule list), `1` parses a full `rule_list`, `2` is the `(boolean_op rule)*`
loop with the accumulated left operand in `acc`.  The transformer builds the
left-associative `boolean_op` chain; the `"AND"`/`"OR"` tokens are filtered by
Lark, so `DSLTransformer.boolean_op` always yields `"AND"`. -/
def parseR (fuel : ℕ) (mode : ℕ) (acc : Expr) (toks : List PTok) :
    Except SynErr (Expr × List PTok) :=
  match fuel with
  | 0 => .error ⟨0, ("fuel")⟩
  | fuel' + 1 =>
    match mode with
    | 0 =>
      (match toks with
       | ⟨.lparen, _⟩ :: rtoks =>
         (match parseComparison toks with
          | .ok res => .ok res
          | .error _ =>
            match parseR fuel' 1 acc rtoks with
            | .ok (r, ⟨.rparen, _⟩ :: rest2) => .ok (r, rest2)
            | .ok (_, ⟨t, p⟩ :: _) => .error ⟨p, tokStr t⟩
            | .ok (_, []) => .error ⟨0, ("$END")⟩
            | .error e => .error e)
       | _ => parseComparison toks)
    | 1 =>
      (match parseR fuel' 0 acc toks with
       | .ok (r, rest) => parseR fuel' 2 r rest
       | .error e => .error e)
    | _ =>
      match toks with
      | ⟨.andKw, _⟩ :: rest =>
        (match parseR fuel' 0 acc rest with
         | .ok (r2, rest2) => parseR fuel' 2 (.booleanOp ("AND") acc r2) rest2
         | .error e => .error e)
      | ⟨.orKw, _⟩ :: rest =>
        (match parseR fuel' 0 acc rest with
         | .ok (r2, rest2) => parseR fuel' 2 (.booleanOp ("AND") acc r2) rest2
         | .error e => .error e)
      | _ => .ok (acc, toks)

/-- Parse a `rule_list`. -/
def parseRuleList (toks : List PTok) : Except SynErr (Expr × List PTok) :=
  parseR (3 * toks.length + 9) 1 default toks

/-- The result of `DSLParser.parse`: the AST dict with its `entry` / `exit`
values wrapped into lists (lines 398-402; an absent key ≙ empty list). -/
structure Strat where
  entry : List Expr
  exit : List Expr

/-- Parse the `strategy` production (`entry_section exit_section? | exit_section`)
and require the input to end there. -/
def parseStrategy (toks : List PTok) : Except SynErr Strat :=
  match toks with
  | ⟨.entryKw, _⟩ :: r1 =>
    (match r1 with
     | ⟨.colon, _⟩ :: r2 =>
       (match parseRuleList r2 with
        | .error e => .error e
        | .ok (re, rest) =>
          match rest with
          | ⟨.exitKw, _⟩ :: ⟨.colon, _⟩ :: r4 =>
            (match parseRuleList r4 with
             | .error e => .error e
             | .ok (rx, rest2) =>
               match rest2 with
               | ⟨.eof, _⟩ :: _ => .ok ⟨[re], [rx]⟩
               | ⟨t, p⟩ :: _ => .error ⟨p, tokStr t⟩
               | [] => .ok ⟨[re], [rx]⟩)
          | ⟨.exitKw, _⟩ :: ⟨t, p⟩ :: _ => .error ⟨p, tokStr t⟩
          | ⟨.exitKw, _⟩ :: [] => .error ⟨0, ("$END")⟩
          | ⟨.eof, _⟩ :: _ => .ok ⟨[re], []⟩
          | ⟨t, p⟩ :: _ => .error ⟨p, tokStr t⟩
          | [] => .ok ⟨[re], []⟩)
     | ⟨t, p⟩ :: _ => .error ⟨p, tokStr t⟩
     | [] => .error ⟨0, ("$END")⟩)
  | ⟨.exitKw, _⟩ :: r1 =>
    (match r1 with
     | ⟨.colon, _⟩ :: r2 =>
       (match parseRuleList r2 with
        | .error e => .error e
        | .ok (rx, rest) =>
          match rest with
          | ⟨.eof, _⟩ :: _ => .ok ⟨[], [rx]⟩
          | ⟨t, p⟩ :: _ => .error ⟨p, tokStr t⟩
          | [] => .ok ⟨[], [rx]⟩)
     | ⟨t, p⟩ :: _ => .error ⟨p, tokStr t⟩
     | [] => .error ⟨0, ("$END")⟩)
  | ⟨t, p⟩ :: _ => .error ⟨p, tokStr t⟩
  | [] => .error ⟨0, ("$END")⟩

/-- `DSLParser.parse`: strip, tokenize, parse, wrap the `entry`/`exit` rules into
lists.  A failure is the spec's `SyntaxError` carrying the offending
token/position (re-raised as `ValueError` by the Python wrapper). -/
def parse (text : String) : Except SynErr Strat :=
  match tokenize text with
  | .error e => .error e
  | .ok toks => parseStrategy toks

/-! ## Claim C2: cross-function arity -/

/-- A one-row frame used by concrete counterexamples. -/
def frameOne : Frame := ⟨1, [(("close"), [10])]⟩

/-- C2, counterexample: the claim says a `crosses_above` call with 3 arguments
fails with an arity error; in `_evaluate_function_call` the check is only
`len(args) < 2`, so the 3-argument call evaluates successfully on its first
two arguments instead of failing. -/
theorem c2_counterexample :
    eval (.functionCall ("crosses_above") [.num 2, .num 1, .num 0]) frameOne
      = .ok (.bools [false]) ∧
    ∀ e : Err,
      eval (.functionCall ("crosses_above") [.num 2, .num 1, .num 0]) frameOne ≠ .error e := by
  refine ⟨rfl, fun e h => ?_⟩
  rw [show eval (.functionCall ("crosses_above") [.num 2, .num 1, .num 0]) frameOne
        = .ok (.bools [false]) from rfl] at h
  exact Except.noConfusion h

/-- C2, amended: for `crosses_above`/`crosses_below` the evaluation fails with the
arity error iff the argument count is smaller than 2; with two or more
arguments the call is evaluated on its first two arguments and any extra
arguments are ignored. -/
theorem c2_amended (name : String)
    (hname : name = "crosses_above" ∨ name = "crosses_below") (f : Frame) :
    (∀ args : List Expr, args.length < 2 →
        eval (.functionCall name args) f = .error (.arity name)) ∧
    (∀ a b rest, eval (.functionCall name (a :: b :: rest)) f
        = eval (.functionCall name [a, b]) f) := by
  rcases hname with h | h <;> subst h <;> refine ⟨fun args hlen => ?_, fun a b rest => ?_⟩
  · match args, hlen with
    | [], _ => rfl
    | [a], _ => rfl
  · rfl
  · match args, hlen with
    | [], _ => rfl
    | [a], _ => rfl
  · rfl

/-- C2, witness for the amended theorem at concrete inputs: the one-argument call
is an arity error, and a three-argument call equals the two-argument call. -/
theorem c2_witness :
    (("crosses_above" : String) = "crosses_above" ∨ ("crosses_above" : String) = "crosses_below") ∧
    eval (.functionCall ("crosses_above") [.num 2]) frameOne = .error (.arity ("crosses_above")) ∧
    eval (.functionCall ("crosses_above") [.num 2, .num 1, .num 0]) frameOne
      = eval (.functionCall ("crosses_above") [.num 2, .num 1]) frameOne :=
  ⟨Or.inl rfl,
   (c2_amended ("crosses_above") (Or.inl rfl) frameOne).1 [.num 2] (by decide),
   (c2_amended ("crosses_above") (Or.inl rfl) frameOne).2 (.num 2) (.num 1) [.num 0]⟩

/-! ## Claim C8: undefined leading values and comparisons -/

/-- C8, counterexample: the claim says any comparison of an undefined (shifted-in)
value is `false`, never `true`, so entry/exit signals are `false` at indices
below the shift offset.  Under pandas/IEEE semantics `NaN != x` is `True`:
the rule `yesterday(close) != 5` produces an entry signal of `True` at index 0,
which is below the shift offset 1. -/
theorem c8_counterexample :
    evalColumn [.binaryOp ("!=") (.functionCall ("yesterday") [.series ("close")]) (.num 5)]
        frameOne = .ok [true] := rfl

/-- Entry `i` of a shifted series, as an if-expression on the source index. -/
theorem shiftSeries_getD (n : ℤ) (s : List Cell) (i : ℕ) (h : i < s.length) :
    (shiftSeries n s).getD i (.val 0)
      = if 0 ≤ (i : ℤ) - n ∧ (i : ℤ) - n < (s.length : ℤ)
        then s.getD ((i : ℤ) - n).toNat .nan else .nan := by
  unfold shiftSeries
  rw [List.getD_eq_getElem?_getD, List.getElem?_map, List.getElem?_range h]
  rfl

/-- C8, amended: a series shifted by `k ≥ 1` is undefined (NaN) at every index
`i < k`; comparing NaN under `>`, `<`, `>=`, `<=` or `==` yields `false` —
but under `!=` it yields `true`, so a `!=` rule's signal can be `true` at
those indices. -/
theorem c8_amended :
    (∀ (s : List Cell) (k i : ℕ), 1 ≤ k → i < k → i < s.length →
        (shiftSeries (k : ℤ) s).getD i (.val 0) = .nan) ∧
    (∀ y : Cell,
        cellGt .nan y = false ∧ cellLt .nan y = false ∧ cellGe .nan y = false ∧
        cellLe .nan y = false ∧ cellEq .nan y = false ∧
        cellGt y .nan = false ∧ cellLt y .nan = false ∧ cellGe y .nan = false ∧
        cellLe y .nan = false ∧ cellEq y .nan = false) ∧
    (∀ y : Cell, cellNe .nan y = true ∧ cellNe y .nan = true) := by
  refine ⟨fun s k i hk hik his => ?_, fun y => ?_, fun y => ?_⟩
  · rw [shiftSeries_getD (k : ℤ) s i his]
    have hne : ¬ (0 ≤ (i : ℤ) - (k : ℤ) ∧ (i : ℤ) - (k : ℤ) < (s.length : ℤ)) := by
      intro hc
      omega
    rw [if_neg hne]
  · cases y <;> simp [cellGt, cellLt, cellGe, cellLe, cellEq]
  · cases y <;> simp [cellNe, cellEq]

/-- C8, witness: the amended statement applied at `k = 1`, `i = 0` on a concrete
one-element series, and at `y = .val 5`. -/
theorem c8_witness :
    ((1 : ℕ) ≤ 1 ∧ (0 : ℕ) < 1 ∧ (0 : ℕ) < [Cell.val 10].length) ∧
    (shiftSeries ((1 : ℕ) : ℤ) [Cell.val 10]).getD 0 (.val 0) = .nan ∧
    cellNe .nan (.val 5) = true :=
  ⟨⟨le_refl 1, Nat.zero_lt_one, by decide⟩,
   c8_amended.1 [Cell.val 10] 1 0 (le_refl 1) Nat.zero_lt_one (by decide),
   (c8_amended.2.2 (.val 5)).1⟩

/-! ## Claim C3: parse errors and well-formed parses -/

/-- Every successful `parseStrategy` result has a nonempty `entry` or `exit` list. -/
theorem parseStrategy_ok_shape (toks : List PTok) (s : Strat)
    (h : parseStrategy toks = .ok s) : s.entry ≠ [] ∨ s.exit ≠ [] := by
  unfold parseStrategy at h
  repeat' split at h
  all_goals cases h
  all_goals first
    | exact Or.inl (List.cons_ne_nil _ _)
    | exact Or.inr (List.cons_ne_nil _ _)

/-- C3: the malformed Scenario-D text `"ENTRY: close >> 5"` (doubled operator) fails
with a syntax error naming the offending token `">"` at character position 14,
and every successful parse yields a `Strategy` (at least one of the `entry` /
`exit` rule lists present). -/
theorem c3_theorem :
    parse ("ENTRY: close >> 5") = .error ⟨14, (">")⟩ ∧
    ∀ (text : String) (s : Strat), parse text = .ok s → s.entry ≠ [] ∨ s.exit ≠ [] := by
  refine ⟨rfl, fun text s h => ?_⟩
  unfold parse at h
  split at h
  · exact Except.noConfusion h
  · exact parseStrategy_ok_shape _ _ h

/-- The strategy parsed from the well-formed text `"ENTRY: close > 5"`. -/
def stratClose5 : Strat := ((parse ("ENTRY: close > 5")).toOption).getD ⟨[], []⟩

/-- C3, witness: the well-formed text `"ENTRY: close > 5"` parses successfully and
the resulting strategy has a rule present. -/
theorem c3_witness :
    parse ("ENTRY: close > 5") = .ok stratClose5 ∧
    (stratClose5.entry ≠ [] ∨ stratClose5.exit ≠ []) :=
  ⟨rfl, c3_theorem.2 ("ENTRY: close > 5") stratClose5 rfl⟩

/-! ## Claim C5: sharpe ratio -/

/-- The population variance is nonnegative. -/
theorem popVar_nonneg (xs : List ℚ) : 0 ≤ popVar xs := by
  unfold popVar meanQ
  refine div_nonneg (List.sum_nonneg ?_) (by positivity)
  intro y hy
  obtain ⟨x, _, rfl⟩ := List.mem_map.1 hy
  positivity

/-- C5: `sharpe_ratio` is `mean(returnPct)/std(returnPct)·√252` with the population
standard deviation exactly when there are more than one trade and that standard
deviation is nonzero (equivalently, the population variance is nonzero), and is
`None` in every other case — in particular whenever `numTrades ≤ 1`. -/
theorem c5_theorem (trades : List Trade) :
    sharpeRatio trades
      = if 1 < trades.length ∧ popVar (returnsOf trades) ≠ 0
        then some (((meanQ (returnsOf trades) : ℚ) : ℝ)
                    / popStd (returnsOf trades) * Real.sqrt 252)
        else none := by
  unfold sharpeRatio
  have hlen : (returnsOf trades).length = trades.length := List.length_map _ _
  have hnn : (0 : ℚ) ≤ popVar (returnsOf trades) := popVar_nonneg _
  by_cases h1 : 1 < trades.length
  · rw [if_pos (by rw [hlen]; exact h1)]
    by_cases h2 : popVar (returnsOf trades) = 0
    · have hstd : popStd (returnsOf trades) = 0 := by
        unfold popStd
        rw [h2]
        simp
      rw [if_neg (by rw [hstd]; exact lt_irrefl 0), if_neg (by
        intro hc
        exact hc.2 h2)]
    · have hpos : 0 < popStd (returnsOf trades) := by
        unfold popStd
        refine Real.sqrt_pos.2 ?_
        exact_mod_cast lt_of_le_of_ne hnn (Ne.symm h2)
      rw [if_pos hpos, if_pos ⟨h1, h2⟩]
  · rw [if_neg (by rw [hlen]; exact h1), if_neg (by
      intro hc
      exact h1 hc.1)]

/-! ## Claim C7: rsi bounds and neutral first value -/

/-- A `getD` with default `0` over a list of nonnegatives is nonnegative. -/
theorem getD_nonneg (l : List ℚ) (h : ∀ y ∈ l, 0 ≤ y) (i : ℕ) : 0 ≤ l.getD i 0 := by
  rw [List.getD_eq_getElem?_getD]
  rcases hlt : l[i]? with _ | y
  · simp
  · simp only [Option.getD_some]
    exact h y (List.getElem?_mem hlt)

/-- The shrinking-window rolling mean of a nonnegative series is nonnegative. -/
theorem rollingMean_nonneg (p : ℕ) (xs : List ℚ) (h : ∀ y ∈ xs, 0 ≤ y) :
    ∀ z ∈ rollingMean p xs, 0 ≤ z := by
  intro z hz
  unfold rollingMean at hz
  obtain ⟨i, _, rfl⟩ := List.mem_map.1 hz
  refine div_nonneg (List.sum_nonneg ?_) (by positivity)
  intro y hy
  exact h y (List.mem_of_mem_take (List.mem_of_mem_drop hy))

/-- The gains/losses series entering the rsi rolling means are nonnegative. -/
theorem rsi_parts_nonneg (delta : List ℚ) (pick : ℚ → ℚ)
    (hpick : ∀ d, 0 ≤ pick d) : ∀ y ∈ delta.map pick, 0 ≤ y := by
  intro y hy
  obtain ⟨d, _, rfl⟩ := List.mem_map.1 hy
  exact hpick d

/-- Entry 0 of a shrinking-window rolling mean over a nonempty list is the head of
the list (the first window is just the first element). -/
theorem rollingMean_getD_zero (p : ℕ) (hp : 1 ≤ p) (xs : List ℚ) (hx : xs ≠ []) :
    (rollingMean p xs).getD 0 0 = xs.getD 0 0 := by
  obtain ⟨x, t, rfl⟩ := List.exists_cons_of_ne_nil hx
  unfold rollingMean
  rw [List.getD_eq_getElem?_getD, List.getElem?_map, List.getElem?_range (by simp)]
  have h0 : 1 - p = 0 := Nat.sub_eq_zero_of_le hp
  simp [h0]

/-- Entry 0 of a mapped list, for a nonempty list. -/
theorem map_getD_zero (f : ℚ → ℚ) (l : List ℚ) (hl : l ≠ []) :
    (l.map f).getD 0 0 = f (l.getD 0 0) := by
  obtain ⟨x, t, rfl⟩ := List.exists_cons_of_ne_nil hl
  simp

/-- `deltaList` of a nonempty series starts with `0` (the NaN of `series.diff()`
as it enters both `where` filters). -/
theorem deltaList_getD_zero (s : List ℚ) (hs : s ≠ []) :
    (deltaList s).getD 0 0 = 0 := by
  unfold deltaList
  rw [List.getD_eq_getElem?_getD, List.getElem?_map,
    List.getElem?_range (List.length_pos.2 hs)]
  rfl

/-- `deltaList` preserves the series length. -/
theorem deltaList_length (s : List ℚ) : (deltaList s).length = s.length := by
  unfold deltaList
  simp

/-- C7: for every period `p ≥ 1` and every input series, every rsi output value
lies in `[0, 100]`, and the first value is the neutral `50`. -/
theorem c7_theorem (s : List ℚ) (p : ℕ) (hp : 1 ≤ p) :
    (∀ x ∈ rsiList s p, 0 ≤ x ∧ x ≤ 100) ∧
    (s ≠ [] → (rsiList s p).getD 0 0 = 50) := by
  constructor
  · intro x hx
    unfold rsiList at hx
    obtain ⟨i, _, rfl⟩ := List.mem_map.1 hx
    simp only []
    have hg : (0 : ℚ) ≤ (rollingMean p ((deltaList s).map (fun d => if d > 0 then d else 0))).getD i 0 := by
      refine getD_nonneg _ (rollingMean_nonneg _ _ (rsi_parts_nonneg _ _ ?_)) i
      intro d
      split
      · linarith
      · exact le_refl 0
    have hl : (0 : ℚ) ≤ (rollingMean p ((deltaList s).map (fun d => if d < 0 then -d else 0))).getD i 0 := by
      refine getD_nonneg _ (rollingMean_nonneg _ _ (rsi_parts_nonneg _ _ ?_)) i
      intro d
      split
      · linarith
      · exact le_refl 0
    set gi := (rollingMean p ((deltaList s).map (fun d => if d > 0 then d else 0))).getD i 0 with hgi
    set li := (rollingMean p ((deltaList s).map (fun d => if d < 0 then -d else 0))).getD i 0 with hli
    by_cases h0 : li = 0
    · rw [if_pos h0]
      split
      · norm_num
      · norm_num
    · rw [if_neg h0]
      have hlpos : 0 < li := lt_of_le_of_ne hl (Ne.symm h0)
      have hrs : (0 : ℚ) ≤ gi / li := div_nonneg hg (le_of_lt hlpos)
      have hden : (1 : ℚ) ≤ 1 + gi / li := by linarith
      have hq1 : (0 : ℚ) < 100 / (1 + gi / li) := by positivity
      have hq2 : 100 / (1 + gi / li) ≤ 100 := by
        refine div_le_self (by norm_num) hden
      constructor
      · linarith
      · linarith
  · intro hs
    have hd : deltaList s ≠ [] := by
      intro hc
      exact hs (List.length_eq_zero.1 (by rw [← deltaList_length s, hc, List.length_nil]))
    have hmg : (deltaList s).map (fun d => if d > 0 then d else 0) ≠ [] := by
      simpa using hd
    have hml : (deltaList s).map (fun d => if d < 0 then -d else 0) ≠ [] := by
      simpa using hd
    unfold rsiList
    rw [List.getD_eq_getElem?_getD, List.getElem?_map,
      List.getElem?_range (List.length_pos.2 hs)]
    simp only [Option.map_some, Option.map_some', Option.getD_some]
    have hg0 : (rollingMean p ((deltaList s).map (fun d => if d > 0 then d else 0))).getD 0 0 = 0 := by
      rw [rollingMean_getD_zero p hp _ hmg, map_getD_zero _ _ hd, deltaList_getD_zero s hs]
      norm_num
    have hl0 : (rollingMean p ((deltaList s).map (fun d => if d < 0 then -d else 0))).getD 0 0 = 0 := by
      rw [rollingMean_getD_zero p hp _ hml, map_getD_zero _ _ hd, deltaList_getD_zero s hs]
      norm_num
    rw [hl0, hg0]
    norm_num

/-- C7, witness: the rsi bounds and neutral first value at `p = 1`, `s = [1, 3]`. -/
theorem c7_witness :
    (1 ≤ 1 ∧ ([(1 : ℚ), 3] ≠ [])) ∧
    (∀ x ∈ rsiList [1, 3] 1, 0 ≤ x ∧ x ≤ 100) ∧
    (rsiList [1, 3] 1).getD 0 0 = 50 :=
  ⟨⟨le_refl 1, by simp⟩,
   (c7_theorem [1, 3] 1 (le_refl 1)).1,
   (c7_theorem [1, 3] 1 (le_refl 1)).2 (by simp)⟩

/-! ## Simulator invariants (claims C1, C4, C10) -/

/-- The state invariant of the simulator loop: along date-ascending rows, every
emitted trade closes no earlier than it opens, trades are chronologically
disjoint (each closes before — or on the same row as — the next one opens),
all trade exits and any open position stay below the processed-row date bound,
and an open position postdates every emitted trade. -/
theorem simLoop_inv (rows : List (Bar × SignalRow)) :
    ∀ (trades : List Trade) (pos : Option Position) (bound top : ℤ),
    (∀ r ∈ rows, bound ≤ r.1.date) →
    (∀ r ∈ rows, r.1.date ≤ top) →
    List.Pairwise (· ≤ ·) (rows.map (fun r => r.1.date)) →
    bound ≤ top →
    (∀ t ∈ trades, t.entry_date ≤ t.exit_date) →
    List.Pairwise (fun a b => a.exit_date ≤ b.entry_date) trades →
    (∀ t ∈ trades, t.exit_date ≤ bound) →
    (∀ p, pos = some p → p.entry_date ≤ bound ∧ ∀ t ∈ trades, t.exit_date ≤ p.entry_date) →
    (∀ t ∈ (simLoop trades pos rows).1, t.entry_date ≤ t.exit_date) ∧
    List.Pairwise (fun a b => a.exit_date ≤ b.entry_date) (simLoop trades pos rows).1 ∧
    (∀ t ∈ (simLoop trades pos rows).1, t.exit_date ≤ top) ∧
    (∀ p, (simLoop trades pos rows).2 = some p →
        p.entry_date ≤ top ∧ ∀ t ∈ (simLoop trades pos rows).1, t.exit_date ≤ p.entry_date) := by
  induction rows with
  | nil =>
    intro trades pos bound top hlb hub hsorted hbt hT hP hTb hpos
    exact ⟨hT, hP, fun t ht => le_trans (hTb t ht) hbt,
      fun p hp => ⟨le_trans (hpos p hp).1 hbt, (hpos p hp).2⟩⟩
  | cons row rows ih =>
    obtain ⟨bar, sig⟩ := row
    intro trades pos bound top hlb hub hsorted hbt hT hP hTb hpos
    have hbd : bound ≤ bar.date := hlb (bar, sig) (List.mem_cons_self _ _)
    have hdt : bar.date ≤ top := hub (bar, sig) (List.mem_cons_self _ _)
    have hsc := List.pairwise_cons.1 hsorted
    have hlb2 : ∀ r ∈ rows, bar.date ≤ r.1.date := by
      intro r hr
      exact hsc.1 r.1.date (List.mem_map.2 ⟨r, hr, rfl⟩)
    have hub2 : ∀ r ∈ rows, r.1.date ≤ top := fun r hr => hub r (List.mem_cons_of_mem _ hr)
    have hst2 := hsc.2
    have hstep : simLoop trades pos ((bar, sig) :: rows)
        = simLoop (simStep trades pos bar sig).1 (simStep trades pos bar sig).2 rows := rfl
    rw [hstep]
    rcases pos with _ | p
    · by_cases he : sig.entry
      · have hss : simStep trades none bar sig = (trades, some ⟨bar.date, bar.entryPrice⟩) := by
          simp [simStep, he]
        rw [hss]
        refine ih trades (some ⟨bar.date, bar.entryPrice⟩) bar.date top hlb2 hub2 hst2 hdt hT hP
          (fun t ht => le_trans (hTb t ht) hbd) ?_
        intro q hq
        cases Option.some.inj hq
        exact ⟨le_refl _, fun t ht => le_trans (hTb t ht) hbd⟩
      · have hss : simStep trades none bar sig = (trades, none) := by
          simp [simStep, he]
        rw [hss]
        exact ih trades none bar.date top hlb2 hub2 hst2 hdt hT hP
          (fun t ht => le_trans (hTb t ht) hbd) (fun q hq => Option.noConfusion hq)
    · obtain ⟨hpd, hpt⟩ := hpos p rfl
      by_cases hx : sig.exit
      · by_cases he : sig.entry
        · have hss : simStep trades (some p) bar sig
              = (trades ++ [mkTrade p.entry_date bar.date p.entry_price bar.exitPrice],
                 some ⟨bar.date, bar.entryPrice⟩) := by
            simp [simStep, hx, he]
          rw [hss]
          refine ih _ _ bar.date top hlb2 hub2 hst2 hdt ?_ ?_ ?_ ?_
          · intro t ht
            rcases List.mem_append.1 ht with h | h
            · exact hT t h
            · rcases List.mem_singleton.1 h with rfl
              exact le_trans hpd hbd
          · refine List.pairwise_append.2 ⟨hP, List.pairwise_singleton _ _, ?_⟩
            intro a ha b hb
            rcases List.mem_singleton.1 hb with rfl
            exact hpt a ha
          · intro t ht
            rcases List.mem_append.1 ht with h | h
            · exact le_trans (hTb t h) hbd
            · rcases List.mem_singleton.1 h with rfl
              exact le_refl _
          · intro q hq
            cases Option.some.inj hq
            refine ⟨le_refl _, ?_⟩
            intro t ht
            rcases List.mem_append.1 ht with h | h
            · exact le_trans (hTb t h) hbd
            · rcases List.mem_singleton.1 h with rfl
              exact le_refl _
        · have hss : simStep trades (some p) bar sig
              = (trades ++ [mkTrade p.entry_date bar.date p.entry_price bar.exitPrice], none) := by
            simp [simStep, hx, he]
          rw [hss]
          refine ih _ none bar.date top hlb2 hub2 hst2 hdt ?_ ?_ ?_
            (fun q hq => Option.noConfusion hq)
          · intro t ht
            rcases List.mem_append.1 ht with h | h
            · exact hT t h
            · rcases List.mem_singleton.1 h with rfl
              exact le_trans hpd hbd
          · refine List.pairwise_append.2 ⟨hP, List.pairwise_singleton _ _, ?_⟩
            intro a ha b hb
            rcases List.mem_singleton.1 hb with rfl
            exact hpt a ha
          · intro t ht
            rcases List.mem_append.1 ht with h | h
            · exact le_trans (hTb t h) hbd
            · rcases List.mem_singleton.1 h with rfl
              exact le_refl _
      · have hss : simStep trades (some p) bar sig = (trades, some p) := by
          simp [simStep, hx]
        rw [hss]
        refine ih trades (some p) bar.date top hlb2 hub2 hst2 hdt hT hP
          (fun t ht => le_trans (hTb t ht) hbd) ?_
        intro q hq
        cases Option.some.inj hq
        exact ⟨le_trans hpd hbd, hpt⟩

/-- In a `≤`-sorted list, every member is at most the last element. -/
theorem sorted_le_getLast (l : List ℤ) (hs : List.Pairwise (· ≤ ·) l) (x : ℤ) (hx : x ∈ l)
    (y : ℤ) (hy : l.getLast? = some y) : x ≤ y := by
  induction l with
  | nil => cases hx
  | cons a t iht =>
    have hsc := List.pairwise_cons.1 hs
    cases t with
    | nil =>
      rcases List.mem_singleton.1 hx with rfl
      cases Option.some.inj hy
      exact le_refl _
    | cons b t2 =>
      have hy2 : (b :: t2).getLast? = some y := by
        rw [← hy]
        rfl
      rcases List.mem_cons.1 hx with rfl | hx2
      · have hyin : y ∈ b :: t2 := by
          have := List.getLast?_eq_getLast (b :: t2) (by simp)
          rw [hy2] at this
          cases Option.some.inj this
          exact List.getLast_mem _
        exact hsc.1 y hyin
      · exact iht hsc.2 hx2 hy2

/-- In a `≤`-sorted list, the head is at most every member. -/
theorem sorted_head_le (l : List ℤ) (hs : List.Pairwise (· ≤ ·) l) (a : ℤ)
    (ha : l.head? = some a) : ∀ x ∈ l, a ≤ x := by
  cases l with
  | nil => cases ha
  | cons h t =>
    cases Option.some.inj ha
    intro x hx
    rcases List.mem_cons.1 hx with rfl | hx2
    · exact le_refl _
    · exact (List.pairwise_cons.1 hs).1 x hx2

/-! ## Claim C4: simulator closure -/

/-- Closure of the whole run, shared by the claims about trade ordering: for a
nonempty, date-sorted bar table and an aligned signal table, every trade exits
no earlier than it enters, consecutive trades are chronologically disjoint,
the run ends with no open position, and a position left open by the loop is
force-closed at the last row's exit price. -/
theorem runTrades_closure (bars : List Bar) (signals : List SignalRow)
    (hne : bars ≠ []) (hlen : signals.length = bars.length)
    (hsorted : List.Pairwise (· ≤ ·) (bars.map (·.date))) :
    (∀ t ∈ runTrades bars signals, t.entry_date ≤ t.exit_date) ∧
    List.Pairwise (fun a b => a.exit_date ≤ b.entry_date) (runTrades bars signals) ∧
    (runFull bars signals).2 = none ∧
    (∀ p lb, (simLoop [] none (bars.zip signals)).2 = some p → bars.getLast? = some lb →
        runTrades bars signals
          = (simLoop [] none (bars.zip signals)).1
              ++ [mkTrade p.entry_date lb.date p.entry_price lb.exitPrice]) := by
  have hmapfst : (bars.zip signals).map Prod.fst = bars :=
    List.map_fst_zip _ _ (le_of_eq hlen.symm)
  have hmapdates : (bars.zip signals).map (fun r => r.1.date) = bars.map (·.date) := by
    rw [show (fun (r : Bar × SignalRow) => r.1.date) = (fun b : Bar => b.date) ∘ Prod.fst
        from rfl, ← List.map_map, hmapfst]
  have hlb : bars.getLast? = some (bars.getLast hne) := List.getLast?_eq_getLast bars hne
  set lb := bars.getLast hne with hlbdef
  have hlastdate : (bars.map (·.date)).getLast? = some lb.date := by
    rw [List.getLast?_map, hlb]
    rfl
  obtain ⟨b0, bt, rfl⟩ := List.exists_cons_of_ne_nil hne
  have hhead : ((b0 :: bt).map (·.date)).head? = some b0.date := rfl
  have hdatemem : ∀ b ∈ b0 :: bt, b.date ∈ (b0 :: bt).map (·.date) := by
    intro b hb
    exact List.mem_map.2 ⟨b, hb, rfl⟩
  have hrowlb : ∀ r ∈ (b0 :: bt).zip signals, b0.date ≤ r.1.date := by
    intro r hr
    exact sorted_head_le _ hsorted _ hhead r.1.date
      (hdatemem r.1 (List.of_mem_zip hr).1)
  have hrowub : ∀ r ∈ (b0 :: bt).zip signals, r.1.date ≤ lb.date := by
    intro r hr
    exact sorted_le_getLast _ hsorted _ (hdatemem r.1 (List.of_mem_zip hr).1) _ hlastdate
  have hbt : b0.date ≤ lb.date :=
    sorted_le_getLast _ hsorted _ (hdatemem b0 (List.mem_cons_self _ _)) _ hlastdate
  have hinv := simLoop_inv ((b0 :: bt).zip signals) [] none b0.date lb.date
    hrowlb hrowub (hmapdates ▸ hsorted) hbt
    (fun t ht => absurd ht (List.not_mem_nil t)) List.Pairwise.nil
    (fun t ht => absurd ht (List.not_mem_nil t))
    (fun p hp => Option.noConfusion hp)
  rcases hres2 : (simLoop [] none ((b0 :: bt).zip signals)).2 with _ | p
  · have hrt : runTrades (b0 :: bt) signals = (simLoop [] none ((b0 :: bt).zip signals)).1 := by
      simp only [runTrades, runFull, hres2]
    have hrf : (runFull (b0 :: bt) signals).2 = none := by
      simp only [runFull, hres2]
    refine ⟨by rw [hrt]; exact hinv.1, by rw [hrt]; exact hinv.2.1, hrf, ?_⟩
    intro p lb2 h1 h2
    exact Option.noConfusion h1
  · obtain ⟨hptop, hpall⟩ := hinv.2.2.2 p hres2
    have hrt : runTrades (b0 :: bt) signals
        = (simLoop [] none ((b0 :: bt).zip signals)).1
            ++ [mkTrade p.entry_date lb.date p.entry_price lb.exitPrice] := by
      simp only [runTrades, runFull, hres2, hlb]
    have hrf : (runFull (b0 :: bt) signals).2 = none := by
      simp only [runFull, hres2, hlb]
    refine ⟨?_, ?_, hrf, ?_⟩
    · rw [hrt]
      intro t ht
      rcases List.mem_append.1 ht with h | h
      · exact hinv.1 t h
      · rcases List.mem_singleton.1 h with rfl
        exact hptop
    · rw [hrt]
      refine List.pairwise_append.2 ⟨hinv.2.1, List.pairwise_singleton _ _, ?_⟩
      intro a ha b hb
      rcases List.mem_singleton.1 hb with rfl
      exact hpall a ha
    · intro q lb2 h1 h2
      cases Option.some.inj h1
      rw [hlb] at h2
      cases Option.some.inj h2
      exact hrt

/-- C4: for a nonempty, date-sorted bar table and an aligned signal table, every
trade exits no earlier than it enters, the trades are chronologically disjoint
(each trade's exit is no later than the next trade's entry, i.e. at most one
position is open at any time), the run ends with no open position, and when the
loop leaves a position open it is force-closed at the last row's exit price. -/
theorem c4_theorem (bars : List Bar) (signals : List SignalRow)
    (hne : bars ≠ []) (hlen : signals.length = bars.length)
    (hsorted : List.Pairwise (· ≤ ·) (bars.map (·.date))) :
    (∀ t ∈ runTrades bars signals, t.entry_date ≤ t.exit_date) ∧
    List.Pairwise (fun a b => a.exit_date ≤ b.entry_date) (runTrades bars signals) ∧
    (runFull bars signals).2 = none ∧
    (∀ p lb, (simLoop [] none (bars.zip signals)).2 = some p → bars.getLast? = some lb →
        runTrades bars signals
          = (simLoop [] none (bars.zip signals)).1
              ++ [mkTrade p.entry_date lb.date p.entry_price lb.exitPrice]) :=
  runTrades_closure bars signals hne hlen hsorted

/-- C4, witness: the closure properties at a concrete one-row table whose entry
signal fires (so the run force-closes on the same row). -/
theorem c4_witness :
    (([(⟨0, 10, 10⟩ : Bar)] : List Bar) ≠ [] ∧
     ([(⟨true, false⟩ : SignalRow)] : List SignalRow).length = [(⟨0, 10, 10⟩ : Bar)].length ∧
     List.Pairwise (· ≤ ·) (([(⟨0, 10, 10⟩ : Bar)] : List Bar).map (·.date))) ∧
    ((∀ t ∈ runTrades [⟨0, 10, 10⟩] [⟨true, false⟩], t.entry_date ≤ t.exit_date) ∧
     List.Pairwise (fun a b => a.exit_date ≤ b.entry_date)
       (runTrades [⟨0, 10, 10⟩] [⟨true, false⟩]) ∧
     (runFull [⟨0, 10, 10⟩] [⟨true, false⟩]).2 = none) := by
  have h := c4_theorem [⟨0, 10, 10⟩] [⟨true, false⟩] (by simp) rfl
    (List.pairwise_singleton _ _)
  exact ⟨⟨by simp, rfl, List.pairwise_singleton _ _⟩, h.1, h.2.1, h.2.2.1⟩

/-! ## Claim C1: exit-then-entry on the same row -/

/-- C1, counterexample: with entry signals on both rows and an exit signal on the
second row, the position closed on row 1 is immediately reopened by the entry
signal of that same row — the second trade's `entry_date` equals (is not
strictly after) the close row's date, refuting the claim that only later rows
are eligible for a fresh entry. -/
theorem c1_counterexample :
    runTrades [⟨0, 10, 10⟩, ⟨1, 12, 12⟩] [⟨true, false⟩, ⟨true, true⟩]
      = [mkTrade 0 1 10 12, mkTrade 1 1 12 12] ∧
    ¬ (((runTrades [⟨0, 10, 10⟩, ⟨1, 12, 12⟩] [⟨true, false⟩, ⟨true, true⟩]).getD 1 default).entry_date
        > ((runTrades [⟨0, 10, 10⟩, ⟨1, 12, 12⟩] [⟨true, false⟩, ⟨true, true⟩]).getD 0 default).exit_date) := by
  constructor
  · rfl
  · intro hgt
    rw [show ((runTrades [⟨0, 10, 10⟩, ⟨1, 12, 12⟩] [⟨true, false⟩, ⟨true, true⟩]).getD 1 default).entry_date
          = (1 : ℤ) from rfl,
        show ((runTrades [⟨0, 10, 10⟩, ⟨1, 12, 12⟩] [⟨true, false⟩, ⟨true, true⟩]).getD 0 default).exit_date
          = (1 : ℤ) from rfl] at hgt
    exact lt_irrefl 1 hgt

/-- C1, amended: when the simulator closes a position on a row, a true entry signal
on that same row *is* reused to reopen immediately; what holds is the weak
ordering — every subsequent trade's `entry_date` is on or after the closing
row's date (the exit date of every earlier trade). -/
theorem c1_amended (bars : List Bar) (signals : List SignalRow)
    (hlen : signals.length = bars.length)
    (hsorted : List.Pairwise (· ≤ ·) (bars.map (·.date))) :
    ∀ (i j : Fin (runTrades bars signals).length), i < j →
      ((runTrades bars signals).get i).exit_date ≤ ((runTrades bars signals).get j).entry_date := by
  rcases hbe : bars with _ | ⟨b0, bt⟩
  · have : runTrades [] signals = [] := rfl
    intro i j hij
    rw [this] at i
    exact absurd i.2 (by simp)
  · rw [← hbe]
    have hp := (runTrades_closure bars signals (by rw [hbe]; simp) hlen hsorted).2.1
    exact fun i j hij => List.pairwise_iff_get.1 hp i j hij

/-- C1, witness for the amended theorem: the same-row re-entry input; the second
trade opens exactly on (not after) the first trade's exit date. -/
theorem c1_witness :
    (([(⟨true, false⟩ : SignalRow), ⟨true, true⟩] : List SignalRow).length
        = ([(⟨0, 10, 10⟩ : Bar), ⟨1, 12, 12⟩] : List Bar).length ∧
     List.Pairwise (· ≤ ·) (([(⟨0, 10, 10⟩ : Bar), ⟨1, 12, 12⟩] : List Bar).map (·.date))) ∧
    ∀ (i j : Fin (runTrades [⟨0, 10, 10⟩, ⟨1, 12, 12⟩] [⟨true, false⟩, ⟨true, true⟩]).length),
      i < j →
      ((runTrades [⟨0, 10, 10⟩, ⟨1, 12, 12⟩] [⟨true, false⟩, ⟨true, true⟩]).get i).exit_date
        ≤ ((runTrades [⟨0, 10, 10⟩, ⟨1, 12, 12⟩] [⟨true, false⟩, ⟨true, true⟩]).get j).entry_date :=
  ⟨⟨rfl, by
      refine List.pairwise_cons.2 ⟨?_, List.pairwise_singleton _ _⟩
      intro d hd
      rcases List.mem_singleton.1 hd with rfl
      decide⟩,
   c1_amended [⟨0, 10, 10⟩, ⟨1, 12, 12⟩] [⟨true, false⟩, ⟨true, true⟩] rfl
     (by
      refine List.pairwise_cons.2 ⟨?_, List.pairwise_singleton _ _⟩
      intro d hd
      rcases List.mem_singleton.1 hd with rfl
      decide)⟩

/-! ## Claim C10: last-row entry and forced liquidation -/

/-- The simulator loop processes appended row blocks sequentially. -/
theorem simLoop_append (trades : List Trade) (pos : Option Position)
    (xs ys : List (Bar × SignalRow)) :
    simLoop trades pos (xs ++ ys)
      = simLoop (simLoop trades pos xs).1 (simLoop trades pos xs).2 ys := by
  induction xs generalizing trades pos with
  | nil => rfl
  | cons r xs ih =>
    obtain ⟨bar, sig⟩ := r
    show simLoop (simStep trades pos bar sig).1 (simStep trades pos bar sig).2 (xs ++ ys) = _
    rw [ih]
    rfl

/-- C10: if the simulator reaches the last row flat (no open position) and that
row's entry signal is true, the run emits a final forced-liquidation trade with
`entry_date = exit_date =` the last row's date; when the entry and exit price
columns agree on that row (the default, both `close`), that trade has
`pnl = 0` and `return_pct = 0`, it counts toward `num_trades`, and it is not a
winning trade, so the win rate is the previous winner count over the enlarged
trade count. -/
theorem c10_theorem (ibs : List Bar) (iss : List SignalRow) (lb : Bar) (ls : SignalRow)
    (cap : ℚ) (hlen : ibs.length = iss.length) (hentry : ls.entry = true)
    (ts : List Trade) (hstate : simLoop [] none (ibs.zip iss) = (ts, none)) :
    runTrades (ibs ++ [lb]) (iss ++ [ls])
        = ts ++ [mkTrade lb.date lb.date lb.entryPrice lb.exitPrice] ∧
    (calcMetrics cap (runTrades (ibs ++ [lb]) (iss ++ [ls]))).num_trades = ts.length + 1 ∧
    (lb.entryPrice = lb.exitPrice →
      (mkTrade lb.date lb.date lb.entryPrice lb.exitPrice).pnl = 0 ∧
      (mkTrade lb.date lb.date lb.entryPrice lb.exitPrice).return_pct = 0 ∧
      (runTrades (ibs ++ [lb]) (iss ++ [ls])).filter (fun t => decide (t.pnl > 0))
        = ts.filter (fun t => decide (t.pnl > 0)) ∧
      (calcMetrics cap (runTrades (ibs ++ [lb]) (iss ++ [ls]))).win_rate
        = ((ts.filter (fun t => decide (t.pnl > 0))).length : ℚ) / ((ts.length : ℚ) + 1)) := by
  have hzip : (ibs ++ [lb]).zip (iss ++ [ls]) = ibs.zip iss ++ [(lb, ls)] :=
    List.zip_append hlen
  have hloop : simLoop [] none ((ibs ++ [lb]).zip (iss ++ [ls]))
      = (ts, some ⟨lb.date, lb.entryPrice⟩) := by
    rw [hzip, simLoop_append, hstate]
    show simLoop (simStep ts none lb ls).1 (simStep ts none lb ls).2 [] = _
    simp [simStep, hentry, simLoop]
  have hlast : (ibs ++ [lb]).getLast? = some lb := List.getLast?_concat _
  have hrun : runTrades (ibs ++ [lb]) (iss ++ [ls])
      = ts ++ [mkTrade lb.date lb.date lb.entryPrice lb.exitPrice] := by
    simp only [runTrades, runFull, hloop, hlast]
  have hnonempty : (ts ++ [mkTrade lb.date lb.date lb.entryPrice lb.exitPrice]).isEmpty = false := by
    simp
  refine ⟨hrun, ?_, ?_⟩
  · rw [hrun]
    unfold calcMetrics
    rw [if_neg (by rw [hnonempty]; exact Bool.false_ne_true)]
    simp
  · intro hpq
    have hpnl : (mkTrade lb.date lb.date lb.entryPrice lb.exitPrice).pnl = 0 := by
      show lb.exitPrice - lb.entryPrice = 0
      rw [hpq, sub_self]
    have hret : (mkTrade lb.date lb.date lb.entryPrice lb.exitPrice).return_pct = 0 := by
      show (lb.exitPrice - lb.entryPrice) / lb.entryPrice * 100 = 0
      rw [hpq, sub_self, zero_div, zero_mul]
    have hfilter : (ts ++ [mkTrade lb.date lb.date lb.entryPrice lb.exitPrice]).filter
          (fun t => decide (t.pnl > 0))
        = ts.filter (fun t => decide (t.pnl > 0)) := by
      rw [List.filter_append]
      have : List.filter (fun t => decide (t.pnl > 0))
          [mkTrade lb.date lb.date lb.entryPrice lb.exitPrice] = [] := by
        rw [List.filter_singleton]
        simp [hpnl]
      rw [this, List.append_nil]
    refine ⟨hpnl, hret, by rw [hrun]; exact hfilter, ?_⟩
    rw [hrun]
    unfold calcMetrics
    rw [if_neg (by rw [hnonempty]; exact Bool.false_ne_true)]
    show ((List.filter _ _).length : ℚ) / _ = _
    rw [hfilter]
    norm_num

/-- C10, witness: a single-bar table with an entry signal on that (last) row and
equal price columns; the state before the last row is trivially flat. -/
theorem c10_witness :
    (([] : List Bar).length = ([] : List SignalRow).length ∧
     (⟨true, false⟩ : SignalRow).entry = true ∧
     simLoop [] none (([] : List Bar).zip ([] : List SignalRow)) = ([], none) ∧
     (⟨7, 5, 5⟩ : Bar).entryPrice = (⟨7, 5, 5⟩ : Bar).exitPrice) ∧
    runTrades ([] ++ [(⟨7, 5, 5⟩ : Bar)]) ([] ++ [(⟨true, false⟩ : SignalRow)])
        = [] ++ [mkTrade 7 7 5 5] ∧
    (calcMetrics 100 (runTrades ([] ++ [(⟨7, 5, 5⟩ : Bar)])
        ([] ++ [(⟨true, false⟩ : SignalRow)]))).num_trades = ([] : List Trade).length + 1 ∧
    (mkTrade 7 7 5 5).pnl = 0 := by
  have h := c10_theorem [] [] ⟨7, 5, 5⟩ ⟨true, false⟩ 100 rfl rfl [] rfl
  exact ⟨⟨rfl, rfl, rfl, rfl⟩, h.1, h.2.1, (h.2.2 rfl).1⟩

/-! ## Claim C6: total return, equity compounding and drawdown -/

/-- Running maxima of a list, seeded with `p` (the claim's running peak). -/
def runMaxAux (p : ℚ) : List ℚ → List ℚ
  | [] => []
  | x :: xs => max p x :: runMaxAux (max p x) xs

/-- The running-peak sequence of an equity curve: entry `i` is the maximum of the
curve over indices `0..i`. -/
def runningPeaks : List ℚ → List ℚ
  | [] => []
  | e :: es => runMaxAux e (e :: es)

/-- The code's asymmetric update `if b > a then b else a` is the maximum. -/
theorem if_gt_eq_max (a b : ℚ) : (if b > a then b else a) = max a b := by
  rcases le_or_lt b a with h | h
  · rw [if_neg (not_lt.2 h), max_eq_left h]
  · rw [if_pos h, max_eq_right (le_of_lt h)]

/-- The drawdown loop computes the running maxima of `peak - equity` and
`(peak - equity)/peak·100` over the running-peak sequence. -/
theorem ddLoop_eq (xs : List ℚ) : ∀ (p m mp : ℚ),
    ddLoop p m mp xs
      = ((List.zipWith (fun pk e => pk - e) (runMaxAux p xs) xs).foldl max m,
         (List.zipWith (fun pk e => (pk - e) / pk * 100) (runMaxAux p xs) xs).foldl max mp) := by
  induction xs with
  | nil => intro p m mp; rfl
  | cons x xs ih =>
    intro p m mp
    show ddLoop (if x > p then x else p)
        (if (if x > p then x else p) - x > m then (if x > p then x else p) - x else m)
        (if ((if x > p then x else p) - x) / (if x > p then x else p) * 100 > mp
         then ((if x > p then x else p) - x) / (if x > p then x else p) * 100 else mp) xs = _
    rw [if_gt_eq_max p x, if_gt_eq_max m (max p x - x),
      if_gt_eq_max mp ((max p x - x) / max p x * 100), ih]
    rfl

/-- `maxDrawdowns` of a nonempty curve, in the claim's running-peak form. -/
theorem maxDrawdowns_eq (curve : List ℚ) (hc : curve ≠ []) :
    maxDrawdowns curve
      = ((List.zipWith (fun pk e => pk - e) (runningPeaks curve) curve).foldl max 0,
         (List.zipWith (fun pk e => (pk - e) / pk * 100) (runningPeaks curve) curve).foldl max 0) := by
  obtain ⟨e, es, rfl⟩ := List.exists_cons_of_ne_nil hc
  show ddLoop e 0 0 (e :: es) = _
  rw [ddLoop_eq]
  rfl

/-- The equity curve has one entry per trade. -/
theorem equityCurve_length (cap : ℚ) (trades : List Trade) :
    (equityCurve cap trades).length = trades.length := by
  induction trades generalizing cap with
  | nil => rfl
  | cons t ts ih => simp [equityCurve, ih]

/-- The equity curve satisfies the claim's compounding recurrence:
`equity[0] = cap·(1+r₀/100)` and `equity[i] = equity[i-1]·(1+rᵢ/100)`. -/
theorem equityCurve_getD (cap : ℚ) (trades : List Trade) :
    ∀ i, i < trades.length →
      (equityCurve cap trades).getD i 0
        = (if i = 0 then cap else (equityCurve cap trades).getD (i - 1) 0)
            * (1 + ((returnsOf trades).getD i 0) / 100) := by
  induction trades generalizing cap with
  | nil => intro i hi; exact absurd hi (Nat.not_lt_zero i)
  | cons t ts ih =>
    intro i hi
    cases i with
    | zero => simp [equityCurve, returnsOf]
    | succ n =>
      have hn : n < ts.length := Nat.lt_of_succ_lt_succ hi
      have hstep : (equityCurve cap (t :: ts)).getD (n + 1) 0
          = (equityCurve (cap * (1 + t.return_pct / 100)) ts).getD n 0 := by
        simp [equityCurve]
      cases n with
      | zero =>
        rw [hstep, ih (cap * (1 + t.return_pct / 100)) 0 hn]
        simp [equityCurve, returnsOf]
      | succ m =>
        have hm : m + 1 < ts.length := hn
        rw [hstep, ih (cap * (1 + t.return_pct / 100)) (m + 1) hm]
        have h1 : (equityCurve cap (t :: ts)).getD (m + 2 - 1) 0
            = (equityCurve (cap * (1 + t.return_pct / 100)) ts).getD (m + 1 - 1) 0 := by
          simp [equityCurve]
        have h2 : ((returnsOf (t :: ts)).getD (m + 2) 0)
            = ((returnsOf ts).getD (m + 1) 0) := by
          simp [returnsOf]
        rw [if_neg (Nat.succ_ne_zero (m + 1)), if_neg (Nat.succ_ne_zero m), h1, h2]

/-- C6: for a nonempty trade list, `total_return_pct` is the simple sum of the
per-trade returns, `total_return = cap·total_return_pct/100`, the equity curve
obeys the sequential-compounding recurrence, and the two drawdown metrics are
the maxima of `peak − equity` and `(peak − equity)/peak·100` over the running
peak of that curve. -/
theorem c6_theorem (cap : ℚ) (trades : List Trade) (hne : trades ≠ []) :
    (calcMetrics cap trades).total_return_pct = (returnsOf trades).sum ∧
    (calcMetrics cap trades).total_return
      = cap * ((calcMetrics cap trades).total_return_pct / 100) ∧
    (equityCurve cap trades).length = trades.length ∧
    (∀ i, i < trades.length →
      (equityCurve cap trades).getD i 0
        = (if i = 0 then cap else (equityCurve cap trades).getD (i - 1) 0)
            * (1 + ((returnsOf trades).getD i 0) / 100)) ∧
    (calcMetrics cap trades).max_drawdown
      = (List.zipWith (fun pk e => pk - e)
          (runningPeaks (equityCurve cap trades)) (equityCurve cap trades)).foldl max 0 ∧
    (calcMetrics cap trades).max_drawdown_pct
      = (List.zipWith (fun pk e => (pk - e) / pk * 100)
          (runningPeaks (equityCurve cap trades)) (equityCurve cap trades)).foldl max 0 := by
  obtain ⟨t0, ts0, rfl⟩ := List.exists_cons_of_ne_nil hne
  have hcne : equityCurve cap (t0 :: ts0) ≠ [] := by
    simp [equityCurve]
  have hdd := maxDrawdowns_eq (equityCurve cap (t0 :: ts0)) hcne
  refine ⟨rfl, rfl, equityCurve_length cap _, equityCurve_getD cap _, ?_, ?_⟩
  · show (maxDrawdowns (equityCurve cap (t0 :: ts0))).1 = _
    rw [hdd]
  · show (maxDrawdowns (equityCurve cap (t0 :: ts0))).2 = _
    rw [hdd]

/-- C6, witness: the metric equalities at one concrete trade and capital 100. -/
theorem c6_witness :
    ([mkTrade 0 1 10 12] ≠ []) ∧
    ((calcMetrics 100 [mkTrade 0 1 10 12]).total_return_pct
        = (returnsOf [mkTrade 0 1 10 12]).sum ∧
     (calcMetrics 100 [mkTrade 0 1 10 12]).max_drawdown
        = (List.zipWith (fun pk e => pk - e)
            (runningPeaks (equityCurve 100 [mkTrade 0 1 10 12]))
            (equityCurve 100 [mkTrade 0 1 10 12])).foldl max 0) := by
  have h := c6_theorem 100 [mkTrade 0 1 10 12] (by simp)
  exact ⟨by simp, h.1, h.2.2.2.2.1⟩

/-! ## Claim C9: top-level rule lists combine with AND -/

/-- The `&`-fold of `evaluate_strategy` over the remaining conditions, when every
condition evaluates to a boolean series: it is the pointwise-AND fold. -/
theorem foldlM_and_bools (f : Frame) (cs : List Expr) (bss : List (List Bool))
    (h : List.Forall₂ (fun c bs => eval c f = .ok (.bools bs)) cs bss) :
    ∀ (acc : List Bool),
    List.foldlM (fun acc c => do
        let w ← eval c f
        andVal acc w) (Val.bools acc) cs
      = .ok (.bools (bss.foldl (fun a b => List.zipWith (· && ·) a b) acc)) := by
  induction h with
  | nil => intro acc; rfl
  | cons hcb htail ih =>
    intro acc
    rw [List.foldlM_cons, hcb]
    exact ih _

/-- Pointwise value of `zipWith (· && ·)`. -/
theorem zipWith_and_getD (a b : List Bool) (i : ℕ) (ha : i < a.length) (hb : i < b.length) :
    (List.zipWith (· && ·) a b).getD i false = (a.getD i false && b.getD i false) := by
  induction a generalizing b i with
  | nil => cases ha
  | cons x xs ih =>
    cases b with
    | nil => cases hb
    | cons y ys =>
      cases i with
      | zero => rfl
      | succ n => exact ih ys n (Nat.lt_of_succ_lt_succ ha) (Nat.lt_of_succ_lt_succ hb)

/-- Length and pointwise value of the AND-fold over equal-length boolean series. -/
theorem foldl_and_getD (bss : List (List Bool)) (n : ℕ) :
    ∀ (acc : List Bool), acc.length = n → (∀ bs ∈ bss, bs.length = n) →
    ((bss.foldl (fun a b => List.zipWith (· && ·) a b) acc).length = n ∧
     ∀ i, i < n →
       (bss.foldl (fun a b => List.zipWith (· && ·) a b) acc).getD i false
         = (acc.getD i false && bss.all (fun bs => bs.getD i false))) := by
  induction bss with
  | nil =>
    intro acc hl _
    exact ⟨hl, fun i hi => by simp⟩
  | cons b bs ih =>
    intro acc hl hall
    have hb : b.length = n := hall b (List.mem_cons_self _ _)
    have hz : (List.zipWith (· && ·) acc b).length = n := by
      rw [List.length_zipWith, hl, hb, min_self]
    obtain ⟨hlen2, hget⟩ := ih (List.zipWith (· && ·) acc b) hz
      (fun x hx => hall x (List.mem_cons_of_mem _ hx))
    refine ⟨hlen2, fun i hi => ?_⟩
    rw [List.foldl_cons, hget i hi,
      zipWith_and_getD acc b i (by omega) (by omega)]
    simp [Bool.and_assoc]

/-- C9: when the top-level `entry` (or `exit`) key holds more than one rule node and
every node evaluates to a boolean series of the index length, the generated
evaluator combines them elementwise with AND — the signal at index `i` is true
iff every node's series is true at `i` — before the `fillna(False)` step;
no OR enters at this level. -/
theorem c9_theorem (f : Frame) (conds : List Expr) (bss : List (List Bool))
    (hmore : 1 < conds.length)
    (heval : List.Forall₂ (fun c bs => eval c f = .ok (.bools bs)) conds bss)
    (hlens : ∀ bs ∈ bss, bs.length = f.n) :
    evalColumn conds f
      = .ok ((List.range f.n).map (fun i => bss.all (fun bs => bs.getD i false))) := by
  cases heval with
  | nil => exact absurd hmore (by simp)
  | @cons c b cs bs' hcb htail =>
    have hbn : b.length = f.n := hlens b (List.mem_cons_self _ _)
    have hbs' : ∀ x ∈ bs', x.length = f.n := fun x hx => hlens x (List.mem_cons_of_mem _ hx)
    obtain ⟨hlen2, hget⟩ := foldl_and_getD bs' f.n b hbn hbs'
    have hstep : evalColumn (c :: cs) f
        = (cs.foldlM (fun acc c2 => do
            let w ← eval c2 f
            andVal acc w) (Val.bools b)) >>= (fun v => Except.ok (fillnaFalse v)) := by
      show (do
        let v0 ← eval c f
        let v ← cs.foldlM (fun acc c2 => do
          let w ← eval c2 f
          andVal acc w) v0
        Except.ok (fillnaFalse v)) = _
      rw [hcb]
      rfl
    rw [hstep, foldlM_and_bools f cs bs' htail b]
    show Except.ok (bs'.foldl (fun a x => List.zipWith (· && ·) a x) b) = _
    refine congrArg Except.ok (List.ext_getElem ?_ ?_)
    · rw [hlen2]
      simp
    · intro i h1 h2
      have hin : i < f.n := by
        rw [hlen2] at h1
        exact h1
      have hL : (bs'.foldl (fun a x => List.zipWith (· && ·) a x) b)[i]
          = (bs'.foldl (fun a x => List.zipWith (· && ·) a x) b).getD i false := by
        rw [List.getD_eq_getElem _ _ h1]
      rw [hL, hget i hin, List.getElem_map, List.getElem_range]
      simp

/-- The concrete frame for the C9 witness: two rows, one `close` column. -/
def frameTwo : Frame := ⟨2, [(("close"), [10, 30])]⟩

/-- C9, witness: two comparison conditions over a two-row frame are combined with
AND — `close > 5` holds on both rows, `close < 20` only on the first, and the
entry column is their pointwise conjunction. -/
theorem c9_witness :
    (1 < ([Expr.binaryOp (">") (.series ("close")) (.num 5),
           Expr.binaryOp ("<") (.series ("close")) (.num 20)] : List Expr).length ∧
     List.Forall₂ (fun c bs => eval c frameTwo = .ok (.bools bs))
       [Expr.binaryOp (">") (.series ("close")) (.num 5),
        Expr.binaryOp ("<") (.series ("close")) (.num 20)]
       [[true, true], [true, false]] ∧
     (∀ bs ∈ ([[true, true], [true, false]] : List (List Bool)), bs.length = frameTwo.n)) ∧
    evalColumn [Expr.binaryOp (">") (.series ("close")) (.num 5),
                Expr.binaryOp ("<") (.series ("close")) (.num 20)] frameTwo
      = .ok ((List.range frameTwo.n).map
          (fun i => ([[true, true], [true, false]] : List (List Bool)).all
            (fun bs => bs.getD i false))) := by
  have hf : List.Forall₂ (fun c bs => eval c frameTwo = .ok (.bools bs))
      [Expr.binaryOp (">") (.series ("close")) (.num 5),
       Expr.binaryOp ("<") (.series ("close")) (.num 20)]
      [[true, true], [true, false]] :=
    List.Forall₂.cons rfl (List.Forall₂.cons rfl List.Forall₂.nil)
  have hl : ∀ bs ∈ ([[true, true], [true, false]] : List (List Bool)), bs.length = frameTwo.n := by
    intro bs hbs
    rcases List.mem_cons.1 hbs with rfl | hbs2
    · rfl
    · rcases List.mem_singleton.1 hbs2 with rfl
      rfl
  exact ⟨⟨by simp, hf, hl⟩, c9_theorem frameTwo _ _ (by simp) hf hl⟩

end Backtester
